import Mathlib

/-!
Verification of the typed columnar (parquet) codec of the
`regenesis_storage_bench` repository, as implemented in `src/encoding.rs`.

The embedding models the logical content the codec writes into the parquet
container: the per-row-group, per-column dense value arrays and definition
level (presence) vectors, exactly as constructed by `encode_subset`, plus the
schema and the writer's compression configuration.  The byte-level parquet
container format itself belongs to the external `parquet` crate and is out of
scope; its row-iterator semantics (definition-level driven reassembly of rows
and `Field` conversion of physical values according to the schema's converted
types) are modelled from that library's documented behaviour, since
`decode_subset` consumes rows through it.

Rust machine integers are modelled as `Nat` (for the unsigned source types
`u8`, `u16`, `u32`, `u64`) and `Int` (for the physical `i32`/`i64` column
values), with the `as` casts made explicit as two's-complement
reinterpretations.  Fallible operations (panics via `unwrap` / `panic!`)
are modelled with `Option`.
-/

set_option maxHeartbeats 1000000

namespace Bench

/-- Two's-complement reinterpretation of an unsigned value as a signed `w`-bit
integer: the semantics of Rust's wrapping `as iW` casts used by the encoder. -/
def toSigned (w : Nat) (n : Nat) : Int :=
  let m := n % 2 ^ w
  if m < 2 ^ (w - 1) then (m : Int) else (m : Int) - 2 ^ w

/-- Reinterpretation of a signed integer's low `w` bits as an unsigned value:
the semantics of the `as uW` casts performed by the parquet crate's
`Field::convert_int32` / `convert_int64` when a converted type is unsigned. -/
def toUnsigned (w : Nat) (v : Int) : Nat :=
  (v % 2 ^ w).toNat

/-- Rust `x as i32` for an unsigned source value (`u8`, `u16`, `u32`). -/
def asI32 (n : Nat) : Int := toSigned 32 n

/-- Rust `x as i64` for an unsigned source value (`u64`). -/
def asI64 (n : Nat) : Int := toSigned 64 n

/-- Parquet row-reader `value as u8` (for `ConvertedType::UINT_8`). -/
def asU8 (v : Int) : Nat := toUnsigned 8 v

/-- Parquet row-reader `value as u16` (for `ConvertedType::UINT_16`). -/
def asU16 (v : Int) : Nat := toUnsigned 16 v

/-- Parquet row-reader `value as u32` (for `ConvertedType::UINT_32`). -/
def asU32 (v : Int) : Nat := toUnsigned 32 v

/-- Parquet row-reader `value as u64` (for `ConvertedType::UINT_64`). -/
def asU64 (v : Int) : Nat := toUnsigned 64 v

/-- A fixed byte string (`Bytes32`, `Address`, `AssetId`, `Nonce`, `Salt`,
`ContractId` are all 32-byte arrays; `Vec<u8>` is unbounded).  Byte strings
pass through the codec opaquely, so a plain list models them. -/
abbrev ByteStr := List Nat

/-- Record type `CoinConfig` from `src/serde_types.rs`. -/
structure CoinConfig where
  tx_id : Option ByteStr
  output_index : Option Nat
  tx_pointer_block_height : Option Nat
  tx_pointer_tx_idx : Option Nat
  maturity : Option Nat
  owner : ByteStr
  amount : Nat
  asset_id : ByteStr
  deriving Repr, DecidableEq

/-- Record type `MessageConfig` from `src/serde_types.rs`. -/
structure MessageConfig where
  sender : ByteStr
  recipient : ByteStr
  nonce : ByteStr
  amount : Nat
  data : ByteStr
  da_height : Nat
  deriving Repr, DecidableEq

/-- Record type `ContractConfig` from `src/serde_types.rs`. -/
structure ContractConfig where
  contract_id : ByteStr
  code : ByteStr
  salt : ByteStr
  tx_id : Option ByteStr
  output_index : Option Nat
  tx_pointer_block_height : Option Nat
  tx_pointer_tx_idx : Option Nat
  deriving Repr, DecidableEq

/-- Record type `ContractState` from `src/serde_types.rs`. -/
structure ContractState where
  key : ByteStr
  value : ByteStr
  deriving Repr, DecidableEq

/-- Record type `ContractBalance` from `src/serde_types.rs`. -/
structure ContractBalance where
  asset_id : ByteStr
  amount : Nat
  deriving Repr, DecidableEq

/-- Lifts a predicate over an optional field (`True` on `None`). -/
def optAll (p : α → Prop) : Option α → Prop
  | none => True
  | some a => p a

instance {p : α → Prop} [DecidablePred p] (o : Option α) : Decidable (optAll p o) :=
  match o with
  | none => isTrue trivial
  | some a => inferInstanceAs (Decidable (p a))

/-- Value ranges guaranteed by the Rust field types of `CoinConfig`
(`Option<Bytes32>`, `Option<u8>`, `Option<BlockHeight>` = `u32`,
`Option<u16>`, `Address`, `u64`, `AssetId`). -/
def CoinConfig.wf (c : CoinConfig) : Prop :=
  optAll (fun b => b.length = 32) c.tx_id ∧
  optAll (· < 2 ^ 8) c.output_index ∧
  optAll (· < 2 ^ 32) c.tx_pointer_block_height ∧
  optAll (· < 2 ^ 16) c.tx_pointer_tx_idx ∧
  optAll (· < 2 ^ 32) c.maturity ∧
  c.owner.length = 32 ∧
  c.amount < 2 ^ 64 ∧
  c.asset_id.length = 32

instance (c : CoinConfig) : Decidable c.wf := by
  unfold CoinConfig.wf; infer_instance

/-- Value ranges guaranteed by the Rust field types of `MessageConfig`
(`Address`, `Address`, `Nonce`, `u64`, `Vec<u8>`, `DaBlockHeight` = `u64`). -/
def MessageConfig.wf (m : MessageConfig) : Prop :=
  m.sender.length = 32 ∧
  m.recipient.length = 32 ∧
  m.nonce.length = 32 ∧
  m.amount < 2 ^ 64 ∧
  m.da_height < 2 ^ 64

instance (m : MessageConfig) : Decidable m.wf := by
  unfold MessageConfig.wf; infer_instance

/-- Value ranges guaranteed by the Rust field types of `ContractConfig`. -/
def ContractConfig.wf (c : ContractConfig) : Prop :=
  c.contract_id.length = 32 ∧
  c.salt.length = 32 ∧
  optAll (fun b => b.length = 32) c.tx_id ∧
  optAll (· < 2 ^ 8) c.output_index ∧
  optAll (· < 2 ^ 32) c.tx_pointer_block_height ∧
  optAll (· < 2 ^ 16) c.tx_pointer_tx_idx

instance (c : ContractConfig) : Decidable c.wf := by
  unfold ContractConfig.wf; infer_instance

/-- Value ranges guaranteed by the Rust field types of `ContractState`. -/
def ContractState.wf (s : ContractState) : Prop :=
  s.key.length = 32 ∧ s.value.length = 32

instance (s : ContractState) : Decidable s.wf := by
  unfold ContractState.wf; infer_instance

/-- Value ranges guaranteed by the Rust field types of `ContractBalance`. -/
def ContractBalance.wf (b : ContractBalance) : Prop :=
  b.asset_id.length = 32 ∧ b.amount < 2 ^ 64

instance (b : ContractBalance) : Decidable b.wf := by
  unfold ContractBalance.wf; infer_instance

/-- Parquet physical types used by the codec (`parquet::basic::Type`). -/
inductive PhysicalType where
  | int32
  | int64
  | fixedLenByteArray
  | byteArray
  deriving Repr, DecidableEq

/-- Parquet converted (logical annotation) types used by the codec
(`parquet::basic::ConvertedType`); `none` is the builder default. -/
inductive ConvertedType where
  | none
  | uint8
  | uint16
  | uint32
  | uint64
  deriving Repr, DecidableEq

/-- Parquet repetition (`parquet::basic::Repetition`). -/
inductive Repetition where
  | required
  | optional
  deriving Repr, DecidableEq

/-- One primitive column descriptor, as produced by
`Type::primitive_type_builder(name, physical)` with the optional
`.with_length`, `.with_converted_type` and `.with_repetition` calls. -/
structure PrimitiveField where
  name : String
  physical : PhysicalType
  length : Option Nat
  converted : ConvertedType
  repetition : Repetition
  deriving Repr, DecidableEq

/-- A record type's schema: the root group name given to
`Type::group_type_builder` and the ordered field list of `.with_fields`. -/
structure Schema where
  groupName : String
  fields : List PrimitiveField
  deriving Repr, DecidableEq

namespace CoinSchema

/-- Column descriptor `tx_id` of `impl ParquetSchema for CoinConfig`. -/
def tx_id : PrimitiveField :=
  ⟨"tx_id", .fixedLenByteArray, some 32, .none, .optional⟩

/-- Column descriptor `output_index` of `impl ParquetSchema for CoinConfig`. -/
def output_index : PrimitiveField :=
  ⟨"output_index", .int32, none, .uint8, .optional⟩

/-- Column descriptor `tx_pointer_block_height` of `CoinConfig`'s schema. -/
def tx_pointer_block_height : PrimitiveField :=
  ⟨"tx_pointer_block_height", .int32, none, .uint32, .optional⟩

/-- Column descriptor `tx_pointer_tx_idx` of `CoinConfig`'s schema. -/
def tx_pointer_tx_idx : PrimitiveField :=
  ⟨"tx_pointer_tx_idx", .int32, none, .uint16, .optional⟩

/-- Column descriptor `maturity` of `CoinConfig`'s schema. -/
def maturity : PrimitiveField :=
  ⟨"maturity", .int32, none, .uint32, .optional⟩

/-- Column descriptor `owner` of `CoinConfig`'s schema. -/
def owner : PrimitiveField :=
  ⟨"owner", .fixedLenByteArray, some 32, .none, .required⟩

/-- Column descriptor `amount` of `CoinConfig`'s schema. -/
def amount : PrimitiveField :=
  ⟨"amount", .int64, none, .uint64, .required⟩

/-- Column descriptor `asset_id` of `CoinConfig`'s schema. -/
def asset_id : PrimitiveField :=
  ⟨"asset_id", .fixedLenByteArray, some 32, .none, .required⟩

end CoinSchema

/-- Schema of `CoinConfig` (`impl ParquetSchema for CoinConfig` in
`src/encoding.rs`). -/
def CoinConfig.schema : Schema :=
  ⟨"CoinConfig",
    [CoinSchema.tx_id, CoinSchema.output_index, CoinSchema.tx_pointer_block_height,
     CoinSchema.tx_pointer_tx_idx, CoinSchema.maturity, CoinSchema.owner,
     CoinSchema.amount, CoinSchema.asset_id]⟩

namespace MessageSchema

/-- Column descriptor `sender` of `MessageConfig`'s schema. -/
def sender : PrimitiveField :=
  ⟨"sender", .fixedLenByteArray, some 32, .none, .required⟩

/-- Column descriptor `recipient` of `MessageConfig`'s schema. -/
def recipient : PrimitiveField :=
  ⟨"recipient", .fixedLenByteArray, some 32, .none, .required⟩

/-- Column descriptor `nonce` of `MessageConfig`'s schema. -/
def nonce : PrimitiveField :=
  ⟨"nonce", .fixedLenByteArray, some 32, .none, .required⟩

/-- Column descriptor `amount` of `MessageConfig`'s schema. -/
def amount : PrimitiveField :=
  ⟨"amount", .int64, none, .uint64, .required⟩

/-- Column descriptor `data` of `MessageConfig`'s schema. -/
def data : PrimitiveField :=
  ⟨"data", .byteArray, none, .none, .required⟩

/-- Column descriptor `da_height` of `MessageConfig`'s schema. -/
def da_height : PrimitiveField :=
  ⟨"da_height", .int64, none, .uint64, .required⟩

end MessageSchema

/-- Schema of `MessageConfig` (`impl ParquetSchema for MessageConfig` in
`src/encoding.rs`).  The source passes the string `"CoinConfig"` to
`group_type_builder`, so the root group name is `"CoinConfig"`. -/
def MessageConfig.schema : Schema :=
  ⟨"CoinConfig",
    [MessageSchema.sender, MessageSchema.recipient, MessageSchema.nonce,
     MessageSchema.amount, MessageSchema.data, MessageSchema.da_height]⟩

namespace ContractSchema

/-- Column descriptor `contract_id` of `ContractConfig`'s schema. -/
def contract_id : PrimitiveField :=
  ⟨"contract_id", .fixedLenByteArray, some 32, .none, .required⟩

/-- Column descriptor `code` of `ContractConfig`'s schema. -/
def code : PrimitiveField :=
  ⟨"code", .byteArray, none, .none, .required⟩

/-- Column descriptor `salt` of `ContractConfig`'s schema. -/
def salt : PrimitiveField :=
  ⟨"salt", .fixedLenByteArray, some 32, .none, .required⟩

/-- Column descriptor `tx_id` of `ContractConfig`'s schema. -/
def tx_id : PrimitiveField :=
  ⟨"tx_id", .fixedLenByteArray, some 32, .none, .optional⟩

/-- Column descriptor `output_index` of `ContractConfig`'s schema. -/
def output_index : PrimitiveField :=
  ⟨"output_index", .int32, none, .uint8, .optional⟩

/-- Column descriptor `tx_pointer_block_height` of `ContractConfig`'s schema. -/
def tx_pointer_block_height : PrimitiveField :=
  ⟨"tx_pointer_block_height", .int32, none, .uint32, .optional⟩

/-- Column descriptor `tx_pointer_tx_idx` of `ContractConfig`'s schema. -/
def tx_pointer_tx_idx : PrimitiveField :=
  ⟨"tx_pointer_tx_idx", .int32, none, .uint16, .optional⟩

end ContractSchema

/-- Schema of `ContractConfig` (`impl ParquetSchema for ContractConfig`). -/
def ContractConfig.schema : Schema :=
  ⟨"ContractConfig",
    [ContractSchema.contract_id, ContractSchema.code, ContractSchema.salt,
     ContractSchema.tx_id, ContractSchema.output_index,
     ContractSchema.tx_pointer_block_height, ContractSchema.tx_pointer_tx_idx]⟩

namespace StateSchema

/-- Column descriptor `key` of `ContractState`'s schema. -/
def key : PrimitiveField :=
  ⟨"key", .fixedLenByteArray, some 32, .none, .required⟩

/-- Column descriptor `value` of `ContractState`'s schema. -/
def value : PrimitiveField :=
  ⟨"value", .fixedLenByteArray, some 32, .none, .required⟩

end StateSchema

/-- Schema of `ContractState` (`impl ParquetSchema for ContractState`). -/
def ContractState.schema : Schema :=
  ⟨"ContractState", [StateSchema.key, StateSchema.value]⟩

namespace BalanceSchema

/-- Column descriptor `asset_id` of `ContractBalance`'s schema. -/
def asset_id : PrimitiveField :=
  ⟨"asset_id", .fixedLenByteArray, some 32, .none, .required⟩

/-- Column descriptor `amount` of `ContractBalance`'s schema. -/
def amount : PrimitiveField :=
  ⟨"amount", .int64, none, .uint64, .required⟩

end BalanceSchema

/-- Schema of `ContractBalance` (`impl ParquetSchema for ContractBalance`). -/
def ContractBalance.schema : Schema :=
  ⟨"ContractBalance", [BalanceSchema.asset_id, BalanceSchema.amount]⟩

/-- A physical column value handed to a typed column writer:
`Int32Type`, `Int64Type`, `FixedLenByteArrayType` or `ByteArrayType`. -/
inductive PhysValue where
  | i32 (v : Int)
  | i64 (v : Int)
  | fixedBytes (b : ByteStr)
  | varBytes (b : ByteStr)
  deriving Repr, DecidableEq

/-- The physical type a `PhysValue` inhabits. -/
def physKind : PhysValue → PhysicalType
  | .i32 _ => .int32
  | .i64 _ => .int64
  | .fixedBytes _ => .fixedLenByteArray
  | .varBytes _ => .byteArray

/-- One column chunk as written by a single
`column.typed::<T>().write_batch(&data, def_levels, None)` call:
the optional definition-level vector (`Some` exactly for optional columns)
and the dense value array. -/
structure ColumnChunk where
  defLevels : Option (List Nat)
  values : List PhysValue
  deriving Repr, DecidableEq

/-- Compression configuration recorded in the writer properties
(`parquet::basic::Compression`, restricted to the variants relevant here). -/
inductive Compression where
  | uncompressed
  | gzip (level : Nat)
  deriving Repr, DecidableEq

/-- The logical content of one encoded parquet container: the schema handed to
`SerializedFileWriter::new`, the compression recorded in the writer
properties, and the ordered row groups, each an ordered list of column
chunks. -/
structure Container where
  schema : Schema
  compression : Compression
  groups : List (List ColumnChunk)
  deriving Repr, DecidableEq

/-- The codec configuration (`struct ParquetCodec` in `src/encoding.rs`). -/
structure ParquetCodec where
  batch_size : Nat
  compression_level : Nat
  deriving Repr, DecidableEq

/-- Embeds the compression selection of `get_writer`: the writer properties
are always built with `Compression::GZIP(GzipLevel::try_new(level))`,
regardless of the level's value. -/
def get_writer_compression (compression_level : Nat) : Compression :=
  Compression.gzip compression_level

/-- Implementation helper for `chunksOf`, structurally recursive on a fuel
argument so that concrete instances reduce inside the kernel; one unit of
fuel is consumed per produced chunk, and `l.length` units always suffice
when `n ≠ 0`. -/
def chunksOfAux (n : Nat) : Nat → List α → List (List α)
  | 0, _ => []
  | fuel + 1, l =>
    if l.isEmpty ∨ n = 0 then []
    else l.take n :: chunksOfAux n fuel (l.drop n)

/-- Embeds `data.into_iter().chunks(batch_size)` (itertools): consecutive
slices of `n` elements, the last possibly shorter; an empty input yields no
chunks.  (`chunks(0)` panics in itertools; theorems assume `0 < n`.) -/
def chunksOf (n : Nat) (l : List α) : List (List α) :=
  chunksOfAux n l.length l

/-- The row group the `CoinConfig` encoder writes for one chunk: the eight
column chunks in the order of the `encode_subset` body. -/
def coinRowGroup (chunk : List CoinConfig) : List ColumnChunk :=
  [ ⟨some (chunk.map fun el => el.tx_id.isSome.toNat),
      (chunk.filterMap (fun el => el.tx_id)).map PhysValue.fixedBytes⟩,
    ⟨some (chunk.map fun el => el.output_index.isSome.toNat),
      (chunk.filterMap (fun el => el.output_index)).map (fun el => .i32 (asI32 el))⟩,
    ⟨some (chunk.map fun el => el.tx_pointer_block_height.isSome.toNat),
      (chunk.filterMap (fun el => el.tx_pointer_block_height)).map
        (fun el => .i32 (asI32 el))⟩,
    ⟨some (chunk.map fun el => el.tx_pointer_tx_idx.isSome.toNat),
      (chunk.filterMap (fun el => el.tx_pointer_tx_idx)).map
        (fun el => .i32 (asI32 el))⟩,
    ⟨some (chunk.map fun el => el.maturity.isSome.toNat),
      (chunk.filterMap (fun el => el.maturity)).map (fun el => .i32 (asI32 el))⟩,
    ⟨none, chunk.map fun el => .fixedBytes el.owner⟩,
    ⟨none, chunk.map fun el => .i64 (asI64 el.amount)⟩,
    ⟨none, chunk.map fun el => .fixedBytes el.asset_id⟩ ]

/-- The row group the `MessageConfig` encoder writes for one chunk. -/
def messageRowGroup (chunk : List MessageConfig) : List ColumnChunk :=
  [ ⟨none, chunk.map fun el => .fixedBytes el.sender⟩,
    ⟨none, chunk.map fun el => .fixedBytes el.recipient⟩,
    ⟨none, chunk.map fun el => .fixedBytes el.nonce⟩,
    ⟨none, chunk.map fun el => .i64 (asI64 el.amount)⟩,
    ⟨none, chunk.map fun el => .varBytes el.data⟩,
    ⟨none, chunk.map fun el => .i64 (asI64 el.da_height)⟩ ]

/-- The row group the `ContractConfig` encoder writes for one chunk. -/
def contractRowGroup (chunk : List ContractConfig) : List ColumnChunk :=
  [ ⟨none, chunk.map fun el => .fixedBytes el.contract_id⟩,
    ⟨none, chunk.map fun el => .varBytes el.code⟩,
    ⟨none, chunk.map fun el => .fixedBytes el.salt⟩,
    ⟨some (chunk.map fun el => el.tx_id.isSome.toNat),
      (chunk.filterMap (fun el => el.tx_id)).map PhysValue.fixedBytes⟩,
    ⟨some (chunk.map fun el => el.output_index.isSome.toNat),
      (chunk.filterMap (fun el => el.output_index)).map (fun el => .i32 (asI32 el))⟩,
    ⟨some (chunk.map fun el => el.tx_pointer_block_height.isSome.toNat),
      (chunk.filterMap (fun el => el.tx_pointer_block_height)).map
        (fun el => .i32 (asI32 el))⟩,
    ⟨some (chunk.map fun el => el.tx_pointer_tx_idx.isSome.toNat),
      (chunk.filterMap (fun el => el.tx_pointer_tx_idx)).map
        (fun el => .i32 (asI32 el))⟩ ]

/-- The row group the `ContractState` encoder writes for one chunk. -/
def stateRowGroup (chunk : List ContractState) : List ColumnChunk :=
  [ ⟨none, chunk.map fun el => .fixedBytes el.key⟩,
    ⟨none, chunk.map fun el => .fixedBytes el.value⟩ ]

/-- The row group the `ContractBalance` encoder writes for one chunk. -/
def balanceRowGroup (chunk : List ContractBalance) : List ColumnChunk :=
  [ ⟨none, chunk.map fun el => .fixedBytes el.asset_id⟩,
    ⟨none, chunk.map fun el => .i64 (asI64 el.amount)⟩ ]

/-- Embeds `impl Encode<CoinConfig, W> for ParquetCodec::encode_subset`:
opens a writer with `CoinConfig`'s schema and the gzip compression level,
then writes one row group per `batch_size` chunk of the data. -/
def ParquetCodec.encode_subset_coin (self : ParquetCodec)
    (data : List CoinConfig) : Container :=
  { schema := CoinConfig.schema
    compression := get_writer_compression self.compression_level
    groups := (chunksOf self.batch_size data).map coinRowGroup }

/-- Embeds `impl Encode<MessageConfig, W> for ParquetCodec::encode_subset`. -/
def ParquetCodec.encode_subset_message (self : ParquetCodec)
    (data : List MessageConfig) : Container :=
  { schema := MessageConfig.schema
    compression := get_writer_compression self.compression_level
    groups := (chunksOf self.batch_size data).map messageRowGroup }

/-- Embeds `impl Encode<ContractConfig, W> for ParquetCodec::encode_subset`. -/
def ParquetCodec.encode_subset_contract (self : ParquetCodec)
    (data : List ContractConfig) : Container :=
  { schema := ContractConfig.schema
    compression := get_writer_compression self.compression_level
    groups := (chunksOf self.batch_size data).map contractRowGroup }

/-- Embeds `impl Encode<ContractState, W> for ParquetCodec::encode_subset`. -/
def ParquetCodec.encode_subset_state (self : ParquetCodec)
    (data : List ContractState) : Container :=
  { schema := ContractState.schema
    compression := get_writer_compression self.compression_level
    groups := (chunksOf self.batch_size data).map stateRowGroup }

/-- Embeds `impl Encode<ContractBalance, W> for ParquetCodec::encode_subset`. -/
def ParquetCodec.encode_subset_balance (self : ParquetCodec)
    (data : List ContractBalance) : Container :=
  { schema := ContractBalance.schema
    compression := get_writer_compression self.compression_level
    groups := (chunksOf self.batch_size data).map balanceRowGroup }

/-- The row-level field values produced by the parquet crate's row iterator
(`parquet::record::Field`, restricted to the variants these schemas can
produce plus `null`). -/
inductive Field where
  | null
  | bytes (b : ByteStr)
  | ubyte (v : Nat)
  | ushort (v : Nat)
  | uint (v : Nat)
  | ulong (v : Nat)
  deriving Repr, DecidableEq

/-- Conversion of a physical column value to a row `Field`, following the
parquet crate's `Field::convert_int32` / `convert_int64` /
`convert_byte_array` dispatch on the column descriptor: a physical value of
the wrong physical type, or a converted type the reader does not expect for
that physical type, is a read error (`none`). -/
def convertValue (fd : PrimitiveField) (v : PhysValue) : Option Field :=
  match fd.physical, v with
  | .int32, .i32 v =>
    match fd.converted with
    | .uint8 => some (.ubyte (asU8 v))
    | .uint16 => some (.ushort (asU16 v))
    | .uint32 => some (.uint (asU32 v))
    | _ => none
  | .int64, .i64 v =>
    match fd.converted with
    | .uint64 => some (.ulong (asU64 v))
    | _ => none
  | .fixedLenByteArray, .fixedBytes b => some (.bytes b)
  | .byteArray, .varBytes b => some (.bytes b)
  | _, _ => none

/-- Option-valued map over a list, failing if any element fails (the shape of
the decode loop: every row must parse, a failure aborts the whole call). -/
def mapOpt (f : α → Option β) : List α → Option (List β)
  | [] => some []
  | a :: as =>
    match f a with
    | none => none
    | some b =>
      match mapOpt f as with
      | none => none
      | some bs => some (b :: bs)

/-- Zip of two lists that must have equal length (column chunks of one row
group have one value sequence per row each). -/
def zipSame : List α → List β → Option (List (α × β))
  | [], [] => some []
  | a :: as, b :: bs => (zipSame as bs).map (fun l => (a, b) :: l)
  | _, _ => none

/-- Reassembly of an optional column: walk the definition levels, consuming
one dense value (converted through `convertValue`) per level 1 and emitting
`Field.null` per level 0; any other level, or a count mismatch, is a read
error. -/
def assembleOpt (fd : PrimitiveField) :
    List Nat → List PhysValue → Option (List Field)
  | [], [] => some []
  | 0 :: ds, vs =>
    match assembleOpt fd ds vs with
    | none => none
    | some l => some (Field.null :: l)
  | 1 :: ds, v :: vs =>
    match convertValue fd v with
    | none => none
    | some fv =>
      match assembleOpt fd ds vs with
      | none => none
      | some rest => some (fv :: rest)
  | _, _ => none

/-- Reassembly of one column chunk into per-row `Field`s, driven by the
column descriptor's repetition: required columns carry no definition levels,
optional columns carry exactly one level per row. -/
def assembleColumn (fd : PrimitiveField) (c : ColumnChunk) :
    Option (List Field) :=
  match fd.repetition, c.defLevels with
  | .required, none => mapOpt (convertValue fd) c.values
  | .optional, some defs => assembleOpt fd defs c.values
  | _, _ => none

/-- Embeds the `Bytes32::new(bytes.data().try_into().unwrap())` pattern of the
decode arms: succeeds exactly on 32-byte strings. -/
def bytes32OfData (b : ByteStr) : Option ByteStr :=
  if b.length = 32 then some b else none

/-- Per-row reconstruction of a `CoinConfig` from the eight column fields, as
in `Decode<CoinConfig>::decode_subset`: each `match` arm accepts exactly the
variants the source accepts, and every `panic!` arm is `none`. -/
def parseCoinRow :
    Field × Field × Field × Field × Field × Field × Field × Field →
    Option CoinConfig
  | (f0, f1, f2, f3, f4, f5, f6, f7) => do
    let tx_id ←
      match f0 with
      | .null => some none
      | .bytes b => (bytes32OfData b).map some
      | _ => none
    let output_index ←
      match f1 with
      | .ubyte v => some (some v)
      | .null => some none
      | _ => none
    let tx_pointer_block_height ←
      match f2 with
      | .uint v => some (some v)
      | .null => some none
      | _ => none
    let tx_pointer_tx_idx ←
      match f3 with
      | .ushort v => some (some v)
      | .null => some none
      | _ => none
    let maturity ←
      match f4 with
      | .uint v => some (some v)
      | .null => some none
      | _ => none
    let owner ←
      match f5 with
      | .bytes b => bytes32OfData b
      | _ => none
    let amount ←
      match f6 with
      | .ulong v => some v
      | _ => none
    let asset_id ←
      match f7 with
      | .bytes b => bytes32OfData b
      | _ => none
    pure ⟨tx_id, output_index, tx_pointer_block_height, tx_pointer_tx_idx,
          maturity, owner, amount, asset_id⟩

/-- Per-row reconstruction of a `MessageConfig`, as in
`Decode<MessageConfig>::decode_subset`. -/
def parseMessageRow :
    Field × Field × Field × Field × Field × Field → Option MessageConfig
  | (f0, f1, f2, f3, f4, f5) => do
    let sender ←
      match f0 with
      | .bytes b => bytes32OfData b
      | _ => none
    let recipient ←
      match f1 with
      | .bytes b => bytes32OfData b
      | _ => none
    let nonce ←
      match f2 with
      | .bytes b => bytes32OfData b
      | _ => none
    let amount ←
      match f3 with
      | .ulong v => some v
      | _ => none
    let data ←
      match f4 with
      | .bytes b => some b
      | _ => none
    let da_height ←
      match f5 with
      | .ulong v => some v
      | _ => none
    pure ⟨sender, recipient, nonce, amount, data, da_height⟩

/-- Per-row reconstruction of a `ContractConfig`, as in
`Decode<ContractConfig>::decode_subset`. -/
def parseContractRow :
    Field × Field × Field × Field × Field × Field × Field →
    Option ContractConfig
  | (f0, f1, f2, f3, f4, f5, f6) => do
    let contract_id ←
      match f0 with
      | .bytes b => bytes32OfData b
      | _ => none
    let code ←
      match f1 with
      | .bytes b => some b
      | _ => none
    let salt ←
      match f2 with
      | .bytes b => bytes32OfData b
      | _ => none
    let tx_id ←
      match f3 with
      | .bytes b => (bytes32OfData b).map some
      | .null => some none
      | _ => none
    let output_index ←
      match f4 with
      | .ubyte v => some (some v)
      | .null => some none
      | _ => none
    let tx_pointer_block_height ←
      match f5 with
      | .uint v => some (some v)
      | .null => some none
      | _ => none
    let tx_pointer_tx_idx ←
      match f6 with
      | .ushort v => some (some v)
      | .null => some none
      | _ => none
    pure ⟨contract_id, code, salt, tx_id, output_index,
          tx_pointer_block_height, tx_pointer_tx_idx⟩

/-- Per-row reconstruction of a `ContractState`. -/
def parseStateRow : Field × Field → Option ContractState
  | (f0, f1) => do
    let key ←
      match f0 with
      | .bytes b => bytes32OfData b
      | _ => none
    let value ←
      match f1 with
      | .bytes b => bytes32OfData b
      | _ => none
    pure ⟨key, value⟩

/-- Per-row reconstruction of a `ContractBalance`. -/
def parseBalanceRow : Field × Field → Option ContractBalance
  | (f0, f1) => do
    let asset_id ←
      match f0 with
      | .bytes b => bytes32OfData b
      | _ => none
    let amount ←
      match f1 with
      | .ulong v => some v
      | _ => none
    pure ⟨asset_id, amount⟩

/-- Decoding one row group of a `CoinConfig` container: the eight column
chunks are reassembled against `CoinConfig`'s schema fields in order, zipped
into rows, and each row is parsed. -/
def decodeCoinGroup (g : List ColumnChunk) : Option (List CoinConfig) :=
  match g with
  | [c0, c1, c2, c3, c4, c5, c6, c7] => do
    let f0 ← assembleColumn CoinSchema.tx_id c0
    let f1 ← assembleColumn CoinSchema.output_index c1
    let f2 ← assembleColumn CoinSchema.tx_pointer_block_height c2
    let f3 ← assembleColumn CoinSchema.tx_pointer_tx_idx c3
    let f4 ← assembleColumn CoinSchema.maturity c4
    let f5 ← assembleColumn CoinSchema.owner c5
    let f6 ← assembleColumn CoinSchema.amount c6
    let f7 ← assembleColumn CoinSchema.asset_id c7
    let r67 ← zipSame f6 f7
    let r567 ← zipSame f5 r67
    let r4567 ← zipSame f4 r567
    let r34567 ← zipSame f3 r4567
    let r234567 ← zipSame f2 r34567
    let r1234567 ← zipSame f1 r234567
    let rows ← zipSame f0 r1234567
    mapOpt parseCoinRow rows
  | _ => none

/-- Decoding one row group of a `MessageConfig` container. -/
def decodeMessageGroup (g : List ColumnChunk) : Option (List MessageConfig) :=
  match g with
  | [c0, c1, c2, c3, c4, c5] => do
    let f0 ← assembleColumn MessageSchema.sender c0
    let f1 ← assembleColumn MessageSchema.recipient c1
    let f2 ← assembleColumn MessageSchema.nonce c2
    let f3 ← assembleColumn MessageSchema.amount c3
    let f4 ← assembleColumn MessageSchema.data c4
    let f5 ← assembleColumn MessageSchema.da_height c5
    let r45 ← zipSame f4 f5
    let r345 ← zipSame f3 r45
    let r2345 ← zipSame f2 r345
    let r12345 ← zipSame f1 r2345
    let rows ← zipSame f0 r12345
    mapOpt parseMessageRow rows
  | _ => none

/-- Decoding one row group of a `ContractConfig` container. -/
def decodeContractGroup (g : List ColumnChunk) : Option (List ContractConfig) :=
  match g with
  | [c0, c1, c2, c3, c4, c5, c6] => do
    let f0 ← assembleColumn ContractSchema.contract_id c0
    let f1 ← assembleColumn ContractSchema.code c1
    let f2 ← assembleColumn ContractSchema.salt c2
    let f3 ← assembleColumn ContractSchema.tx_id c3
    let f4 ← assembleColumn ContractSchema.output_index c4
    let f5 ← assembleColumn ContractSchema.tx_pointer_block_height c5
    let f6 ← assembleColumn ContractSchema.tx_pointer_tx_idx c6
    let r56 ← zipSame f5 f6
    let r456 ← zipSame f4 r56
    let r3456 ← zipSame f3 r456
    let r23456 ← zipSame f2 r3456
    let r123456 ← zipSame f1 r23456
    let rows ← zipSame f0 r123456
    mapOpt parseContractRow rows
  | _ => none

/-- Decoding one row group of a `ContractState` container. -/
def decodeStateGroup (g : List ColumnChunk) : Option (List ContractState) :=
  match g with
  | [c0, c1] => do
    let f0 ← assembleColumn StateSchema.key c0
    let f1 ← assembleColumn StateSchema.value c1
    let rows ← zipSame f0 f1
    mapOpt parseStateRow rows
  | _ => none

/-- Decoding one row group of a `ContractBalance` container. -/
def decodeBalanceGroup (g : List ColumnChunk) : Option (List ContractBalance) :=
  match g with
  | [c0, c1] => do
    let f0 ← assembleColumn BalanceSchema.asset_id c0
    let f1 ← assembleColumn BalanceSchema.amount c1
    let rows ← zipSame f0 f1
    mapOpt parseBalanceRow rows
  | _ => none

/-- The sequence of `CoinConfig` records the decode loop of
`Decode<CoinConfig>::decode_subset` reconstructs (its per-row `_deser`
values): the row iterator is opened with the projection
`CoinConfig::schema()`, which must match the container's schema, and rows of
all row groups are produced in file order.  `none` models a panic. -/
def ParquetCodec.decode_subset_coin_rows (file : Container) :
    Option (List CoinConfig) :=
  if file.schema = CoinConfig.schema then
    (mapOpt decodeCoinGroup file.groups).map List.flatten
  else none

/-- The sequence of records the `MessageConfig` decode loop reconstructs. -/
def ParquetCodec.decode_subset_message_rows (file : Container) :
    Option (List MessageConfig) :=
  if file.schema = MessageConfig.schema then
    (mapOpt decodeMessageGroup file.groups).map List.flatten
  else none

/-- The sequence of records the `ContractConfig` decode loop reconstructs. -/
def ParquetCodec.decode_subset_contract_rows (file : Container) :
    Option (List ContractConfig) :=
  if file.schema = ContractConfig.schema then
    (mapOpt decodeContractGroup file.groups).map List.flatten
  else none

/-- The sequence of records the `ContractState` decode loop reconstructs. -/
def ParquetCodec.decode_subset_state_rows (file : Container) :
    Option (List ContractState) :=
  if file.schema = ContractState.schema then
    (mapOpt decodeStateGroup file.groups).map List.flatten
  else none

/-- The sequence of records the `ContractBalance` decode loop reconstructs. -/
def ParquetCodec.decode_subset_balance_rows (file : Container) :
    Option (List ContractBalance) :=
  if file.schema = ContractBalance.schema then
    (mapOpt decodeBalanceGroup file.groups).map List.flatten
  else none

/-- Embeds `impl Decode<CoinConfig, _> for ParquetCodec::decode_subset`
itself: the loop binds each reconstructed record to `_deser` and drops it,
and the function returns `()`; only panics (modelled by `none`) escape. -/
def ParquetCodec.decode_subset_coin (file : Container) : Option Unit :=
  (ParquetCodec.decode_subset_coin_rows file).map (fun _ => ())

/-- Embeds `impl Decode<MessageConfig, _> for ParquetCodec::decode_subset`. -/
def ParquetCodec.decode_subset_message (file : Container) : Option Unit :=
  (ParquetCodec.decode_subset_message_rows file).map (fun _ => ())

/-- Embeds `impl Decode<ContractConfig, _> for ParquetCodec::decode_subset`. -/
def ParquetCodec.decode_subset_contract (file : Container) : Option Unit :=
  (ParquetCodec.decode_subset_contract_rows file).map (fun _ => ())

/-- Embeds `impl Decode<ContractState, _> for ParquetCodec::decode_subset`. -/
def ParquetCodec.decode_subset_state (file : Container) : Option Unit :=
  (ParquetCodec.decode_subset_state_rows file).map (fun _ => ())

/-- Embeds `impl Decode<ContractBalance, _> for ParquetCodec::decode_subset`. -/
def ParquetCodec.decode_subset_balance (file : Container) : Option Unit :=
  (ParquetCodec.decode_subset_balance_rows file).map (fun _ => ())

/-- Calls made against the `SerializedFileWriter` during encoding, in program
order: `next_row_group`, `next_column`, `write_batch`, `column.close`,
`group.close` and the final `writer.close`. -/
inductive WriterEvent where
  | nextRowGroup
  | nextColumn
  | writeBatch (c : ColumnChunk)
  | closeColumn
  | closeGroup
  | closeWriter
  deriving Repr, DecidableEq

/-- The call sequence the `CoinConfig` encoder issues for one chunk: open the
row group, then for each of the eight columns in schema order open the
column, write its batch, and close it, then close the row group. -/
def coinGroupEvents (chunk : List CoinConfig) : List WriterEvent :=
  WriterEvent.nextRowGroup ::
    ((coinRowGroup chunk).flatMap fun c =>
      [WriterEvent.nextColumn, WriterEvent.writeBatch c, WriterEvent.closeColumn])
    ++ [WriterEvent.closeGroup]

/-- The full `SerializedFileWriter` call trace of
`Encode<CoinConfig>::encode_subset`: the per-chunk traces in chunk order,
then `writer.close()`. -/
def ParquetCodec.encode_subset_coin_trace (self : ParquetCodec)
    (data : List CoinConfig) : List WriterEvent :=
  ((chunksOf self.batch_size data).flatMap coinGroupEvents)
    ++ [WriterEvent.closeWriter]

/-- States of the writer-discipline automaton: at top level, inside an open
row group, inside an open column, or closed for good. -/
inductive WriterState where
  | top
  | inGroup
  | inColumn
  | closed
  deriving Repr, DecidableEq

/-- Transition relation of the writer discipline the parquet
`SerializedFileWriter` API enforces: a column must be opened inside a row
group and closed before the next column or the group close, a row group must
be closed before the next one opens, and nothing follows `writer.close()`. -/
def writerStep (s : Option WriterState) (e : WriterEvent) : Option WriterState :=
  match s, e with
  | some .top, .nextRowGroup => some .inGroup
  | some .inGroup, .nextColumn => some .inColumn
  | some .inColumn, .writeBatch _ => some .inColumn
  | some .inColumn, .closeColumn => some .inGroup
  | some .inGroup, .closeGroup => some .top
  | some .top, .closeWriter => some .closed
  | _, _ => none

/-- A trace is disciplined when the automaton consumes it completely and ends
in the closed state. -/
def disciplined (tr : List WriterEvent) : Prop :=
  tr.foldl writerStep (some WriterState.top) = some WriterState.closed

instance (tr : List WriterEvent) : Decidable (disciplined tr) := by
  unfold disciplined; infer_instance

/-- The column chunk written by a `writeBatch` event, if any. -/
def writtenChunk : WriterEvent → Option ColumnChunk
  | .writeBatch c => some c
  | _ => none

/-- Correspondence between a written column chunk and a schema field: the
chunk carries definition levels exactly when the field is optional, and every
value written matches the field's physical type. -/
def columnMatchesField (c : ColumnChunk) (fd : PrimitiveField) : Prop :=
  (c.defLevels.isSome ↔ fd.repetition = Repetition.optional) ∧
  ∀ v ∈ c.values, physKind v = fd.physical

/-- Sample 32-byte string for concrete witnesses. -/
def b32a : ByteStr := List.replicate 32 17

/-- Second sample 32-byte string for concrete witnesses. -/
def b32b : ByteStr := List.replicate 32 250

/-- Sample coin with all optional fields present (output index 255). -/
def coinA : CoinConfig :=
  ⟨some b32a, some 255, some 4000000000, some 65535, some 7, b32b,
   2 ^ 63 + 99, b32a⟩

/-- Sample coin with all optional fields absent. -/
def coinB : CoinConfig := ⟨none, none, none, none, none, b32a, 5, b32b⟩

/-- Sample coin with a mix of present and absent optional fields. -/
def coinC : CoinConfig := ⟨some b32b, none, some 0, none, some 1, b32b, 0, b32a⟩

/-- Sample message. -/
def msgA : MessageConfig := ⟨b32a, b32b, b32a, 2 ^ 64 - 1, [1, 2, 3], 12⟩

/-- Second sample message (empty payload). -/
def msgB : MessageConfig := ⟨b32b, b32a, b32b, 0, [], 2 ^ 63⟩

/-- Sample contract with optional fields present. -/
def contractA : ContractConfig :=
  ⟨b32a, [0, 1, 2, 3, 4], b32b, some b32a, some 255, some 3, some 9⟩

/-- Sample contract with optional fields absent. -/
def contractB : ContractConfig := ⟨b32b, [], b32a, none, none, none, none⟩

/-- Sample contract storage entry. -/
def stateA : ContractState := ⟨b32a, b32b⟩

/-- Sample contract balance. -/
def balanceA : ContractBalance := ⟨b32a, 2 ^ 63⟩

/-- A coin row group whose first column holds an `INT32` physical value where
the schema expects `FIXED_LEN_BYTE_ARRAY` (a physical/logical type
mismatch). -/
def badCoinGroup : List ColumnChunk :=
  ⟨some [1], [PhysValue.i32 7]⟩ :: (coinRowGroup [coinB]).tail

/-- A coin container containing `badCoinGroup`. -/
def badCoinFile : Container :=
  ⟨CoinConfig.schema, Compression.gzip 0, [badCoinGroup]⟩

theorem chunksOfAux_congr {n : Nat} :
    ∀ (f1 f2 : Nat) (l : List α), l.length ≤ f1 → l.length ≤ f2 →
      chunksOfAux n f1 l = chunksOfAux n f2 l := by
  intro f1
  induction f1 with
  | zero =>
    intro f2 l h1 h2
    have hl : l = [] := by
      match l with
      | [] => rfl
      | _ :: _ => simp at h1
    subst hl
    cases f2 <;> simp [chunksOfAux]
  | succ f ih =>
    intro f2 l h1 h2
    match f2 with
    | 0 =>
      have hl : l = [] := by
        match l with
        | [] => rfl
        | _ :: _ => simp at h2
      subst hl
      simp [chunksOfAux]
    | g + 1 =>
      by_cases h0 : l.isEmpty ∨ n = 0
      · simp only [chunksOfAux, if_pos h0]
      · simp only [chunksOfAux, if_neg h0]
        push_neg at h0
        have hl : l ≠ [] := by
          intro he
          subst he
          exact absurd rfl h0.1
        have hn : n ≠ 0 := h0.2
        have hpos : 0 < l.length := List.length_pos.mpr hl
        congr 1
        refine ih g (l.drop n) ?_ ?_ <;> simp only [List.length_drop] <;> omega

theorem chunksOf_nil (n : Nat) : chunksOf n ([] : List α) = [] := rfl

theorem chunksOf_eq_cons {n : Nat} (hn : n ≠ 0) {l : List α} (hl : l ≠ []) :
    chunksOf n l = l.take n :: chunksOf n (l.drop n) := by
  show chunksOfAux n l.length l = _
  obtain ⟨k, hk⟩ : ∃ k, l.length = k + 1 := by
    match l with
    | [] => exact absurd rfl hl
    | _ :: t => exact ⟨t.length, rfl⟩
  rw [hk]
  rw [show chunksOfAux n (k + 1) l
      = if l.isEmpty ∨ n = 0 then []
        else l.take n :: chunksOfAux n k (l.drop n) from rfl]
  rw [if_neg (by simp [hl, hn])]
  congr 1
  exact chunksOfAux_congr k (l.drop n).length (l.drop n)
    (by simp only [List.length_drop]; omega) (le_refl _)

theorem chunksOf_eq_nil_iff {n : Nat} (hn : n ≠ 0) {l : List α} :
    chunksOf n l = [] ↔ l = [] := by
  constructor
  · intro h
    by_contra hl
    rw [chunksOf_eq_cons hn hl] at h
    cases h
  · intro h
    subst h
    exact chunksOf_nil n

theorem chunksOf_flatten {n : Nat} (hn : n ≠ 0) (l : List α) :
    (chunksOf n l).flatten = l := by
  by_cases hl : l = []
  · subst hl
    rw [chunksOf_nil]
    rfl
  · rw [chunksOf_eq_cons hn hl, List.flatten_cons, chunksOf_flatten hn (l.drop n),
        List.take_append_drop]
termination_by l.length
decreasing_by
  have : 0 < l.length := List.length_pos.mpr hl
  simp only [List.length_drop]
  omega

theorem mem_of_mem_chunksOf {n : Nat} (hn : n ≠ 0) {l g : List α}
    (hg : g ∈ chunksOf n l) {x : α} (hx : x ∈ g) : x ∈ l := by
  rw [← chunksOf_flatten hn l]
  exact List.mem_flatten.mpr ⟨g, hg, hx⟩

theorem chunksOf_length_le {n : Nat} (hn : n ≠ 0) (l : List α) :
    ∀ g ∈ chunksOf n l, g.length ≤ n := by
  intro g hg
  by_cases hl : l = []
  · subst hl
    rw [chunksOf_nil] at hg
    cases hg
  · rw [chunksOf_eq_cons hn hl] at hg
    rcases List.mem_cons.mp hg with h | h
    · subst h
      simp only [List.length_take]
      omega
    · exact chunksOf_length_le hn (l.drop n) g h
termination_by l.length
decreasing_by
  have : 0 < l.length := List.length_pos.mpr hl
  simp only [List.length_drop]
  omega

theorem chunksOf_ne_nil {n : Nat} (hn : n ≠ 0) (l : List α) :
    ∀ g ∈ chunksOf n l, g ≠ [] := by
  intro g hg
  by_cases hl : l = []
  · subst hl
    rw [chunksOf_nil] at hg
    cases hg
  · rw [chunksOf_eq_cons hn hl] at hg
    rcases List.mem_cons.mp hg with h | h
    · subst h
      simp only [ne_eq, List.take_eq_nil_iff]
      push_neg
      exact ⟨hn, hl⟩
    · exact chunksOf_ne_nil hn (l.drop n) g h
termination_by l.length
decreasing_by
  have : 0 < l.length := List.length_pos.mpr hl
  simp only [List.length_drop]
  omega

theorem chunksOf_dropLast_length {n : Nat} (hn : n ≠ 0) (l : List α) :
    ∀ g ∈ (chunksOf n l).dropLast, g.length = n := by
  intro g hg
  by_cases hl : l = []
  · subst hl
    rw [chunksOf_nil] at hg
    cases hg
  · rw [chunksOf_eq_cons hn hl] at hg
    by_cases hrest : chunksOf n (l.drop n) = []
    · rw [hrest] at hg
      cases hg
    · rw [List.dropLast_cons_of_ne_nil hrest] at hg
      rcases List.mem_cons.mp hg with h | h
      · subst h
        have hdrop : l.drop n ≠ [] := (chunksOf_eq_nil_iff hn).not.mp hrest
        have : n < l.length := by
          by_contra hle
          exact hdrop (List.drop_eq_nil_of_le (by omega))
        simp only [List.length_take]
        omega
      · exact chunksOf_dropLast_length hn (l.drop n) g h
termination_by l.length
decreasing_by
  have : 0 < l.length := List.length_pos.mpr hl
  simp only [List.length_drop]
  omega

theorem asU8_asI32 {n : Nat} (h : n < 2 ^ 8) : asU8 (asI32 n) = n := by
  simp only [asU8, asI32, toUnsigned, toSigned]
  have h32 : n % 2 ^ 32 = n := Nat.mod_eq_of_lt (by omega)
  rw [h32]
  rw [if_pos (by norm_num; omega)]
  omega

theorem asU16_asI32 {n : Nat} (h : n < 2 ^ 16) : asU16 (asI32 n) = n := by
  simp only [asU16, asI32, toUnsigned, toSigned]
  have h32 : n % 2 ^ 32 = n := Nat.mod_eq_of_lt (by omega)
  rw [h32]
  rw [if_pos (by norm_num; omega)]
  omega

theorem asU32_asI32 {n : Nat} (h : n < 2 ^ 32) : asU32 (asI32 n) = n := by
  simp only [asU32, asI32, toUnsigned, toSigned]
  have h32 : n % 2 ^ 32 = n := Nat.mod_eq_of_lt (by omega)
  rw [h32]
  split
  · omega
  · omega

theorem asU64_asI64 {n : Nat} (h : n < 2 ^ 64) : asU64 (asI64 n) = n := by
  simp only [asU64, asI64, toUnsigned, toSigned]
  have h64 : n % 2 ^ 64 = n := Nat.mod_eq_of_lt (by omega)
  rw [h64]
  split
  · omega
  · omega

theorem mapOpt_map_eq {α β γ : Type} {enc : α → β} {f : β → Option γ}
    {g : α → γ} {l : List α} (h : ∀ x ∈ l, f (enc x) = some (g x)) :
    mapOpt f (l.map enc) = some (l.map g) := by
  induction l with
  | nil => rfl
  | cons a as ih =>
    have ha := h a (List.mem_cons_self a as)
    have ih' := ih fun x hx => h x (List.mem_cons_of_mem a hx)
    simp [mapOpt, ha, ih']

theorem mapOpt_map_id {α β : Type} {enc : α → β} {f : β → Option α}
    {l : List α} (h : ∀ x ∈ l, f (enc x) = some x) :
    mapOpt f (l.map enc) = some l := by
  have := mapOpt_map_eq (g := id) h
  simpa using this

theorem mapOpt_eq_some_forall {α β : Type} {f : α → Option β} {l : List α}
    {r : List β} (h : mapOpt f l = some r) : ∀ x ∈ l, ∃ y, f x = some y := by
  induction l generalizing r with
  | nil => intro x hx; cases hx
  | cons a as ih =>
    intro x hx
    simp only [mapOpt] at h
    cases hfa : f a with
    | none => rw [hfa] at h; cases h
    | some b =>
      rw [hfa] at h
      cases hrest : mapOpt f as with
      | none => rw [hrest] at h; cases h
      | some bs =>
        rcases List.mem_cons.mp hx with hx | hx
        · exact hx ▸ ⟨b, hfa⟩
        · exact ih hrest x hx

theorem mapOpt_none_of_mem {α β : Type} {f : α → Option β} {l : List α}
    {x : α} (hx : x ∈ l) (hfx : f x = none) : mapOpt f l = none := by
  induction l with
  | nil => cases hx
  | cons a as ih =>
    rcases List.mem_cons.mp hx with h | h
    · subst h
      simp [mapOpt, hfx]
    · simp only [mapOpt]
      cases f a with
      | none => rfl
      | some b => rw [ih h]

theorem zipSame_map_map {α β γ : Type} (f : α → β) (g : α → γ) (l : List α) :
    zipSame (l.map f) (l.map g) = some (l.map fun x => (f x, g x)) := by
  induction l with
  | nil => rfl
  | cons a as ih => simp [zipSame, ih]

theorem assembleOpt_encode {α β : Type} {fd : PrimitiveField}
    {f : α → Option β} {enc : β → PhysValue} {g : β → Field} {l : List α}
    (h : ∀ x ∈ l, ∀ v, f x = some v → convertValue fd (enc v) = some (g v)) :
    assembleOpt fd (l.map fun x => (f x).isSome.toNat)
      ((l.filterMap f).map enc) = some (l.map fun x => (f x).elim Field.null g) := by
  induction l with
  | nil => rfl
  | cons a as ih =>
    have ih' := ih fun x hx v hv => h x (List.mem_cons_of_mem a hx) v hv
    cases hfa : f a with
    | none =>
      simp [List.filterMap_cons, hfa, assembleOpt, ih']
    | some v =>
      have hc := h a (List.mem_cons_self a as) v hfa
      simp [List.filterMap_cons, hfa, assembleOpt, hc, ih']

theorem filterMap_length_count {α β : Type} (f : α → Option β) (l : List α) :
    ((l.filterMap f).length : Nat) =
      (l.map fun x => (f x).isSome.toNat).count 1 := by
  induction l with
  | nil => rfl
  | cons a as ih =>
    cases hfa : f a <;>
      simp [List.filterMap_cons, hfa, List.count_cons, ih]

theorem convert_uint8_roundtrip {fd : PrimitiveField} (hp : fd.physical = .int32)
    (hc : fd.converted = .uint8) {v : Nat} (hv : v < 2 ^ 8) :
    convertValue fd (.i32 (asI32 v)) = some (.ubyte v) := by
  simp [convertValue, hp, hc, asU8_asI32 hv]

theorem convert_uint16_roundtrip {fd : PrimitiveField} (hp : fd.physical = .int32)
    (hc : fd.converted = .uint16) {v : Nat} (hv : v < 2 ^ 16) :
    convertValue fd (.i32 (asI32 v)) = some (.ushort v) := by
  simp [convertValue, hp, hc, asU16_asI32 hv]

theorem convert_uint32_roundtrip {fd : PrimitiveField} (hp : fd.physical = .int32)
    (hc : fd.converted = .uint32) {v : Nat} (hv : v < 2 ^ 32) :
    convertValue fd (.i32 (asI32 v)) = some (.uint v) := by
  simp [convertValue, hp, hc, asU32_asI32 hv]

theorem convert_uint64_roundtrip {fd : PrimitiveField} (hp : fd.physical = .int64)
    (hc : fd.converted = .uint64) {v : Nat} (hv : v < 2 ^ 64) :
    convertValue fd (.i64 (asI64 v)) = some (.ulong v) := by
  simp [convertValue, hp, hc, asU64_asI64 hv]

theorem parseCoinRow_correct {c : CoinConfig} (h : c.wf) :
    parseCoinRow
      (c.tx_id.elim Field.null Field.bytes,
       c.output_index.elim Field.null Field.ubyte,
       c.tx_pointer_block_height.elim Field.null Field.uint,
       c.tx_pointer_tx_idx.elim Field.null Field.ushort,
       c.maturity.elim Field.null Field.uint,
       Field.bytes c.owner,
       Field.ulong c.amount,
       Field.bytes c.asset_id) = some c := by
  obtain ⟨t, o, bh, ti, m, ow, am, ai⟩ := c
  obtain ⟨h1, h2, h3, h4, h5, h6, h7, h8⟩ := h
  cases t <;> cases o <;> cases bh <;> cases ti <;> cases m <;>
    simp_all [parseCoinRow, bytes32OfData, optAll, Option.elim]

theorem decodeCoinGroup_roundtrip {chunk : List CoinConfig}
    (h : ∀ c ∈ chunk, c.wf) :
    decodeCoinGroup (coinRowGroup chunk) = some chunk := by
  have e0 : assembleColumn CoinSchema.tx_id
      ⟨some (chunk.map fun el => el.tx_id.isSome.toNat),
       (chunk.filterMap (fun el => el.tx_id)).map PhysValue.fixedBytes⟩
      = some (chunk.map fun x => x.tx_id.elim Field.null Field.bytes) :=
    assembleOpt_encode fun _ _ _ _ => rfl
  have e1 : assembleColumn CoinSchema.output_index
      ⟨some (chunk.map fun el => el.output_index.isSome.toNat),
       (chunk.filterMap (fun el => el.output_index)).map
         (fun el => PhysValue.i32 (asI32 el))⟩
      = some (chunk.map fun x => x.output_index.elim Field.null Field.ubyte) := by
    refine assembleOpt_encode fun x hx v hv => ?_
    have hwf := (h x hx).2.1
    rw [hv] at hwf
    exact convert_uint8_roundtrip rfl rfl hwf
  have e2 : assembleColumn CoinSchema.tx_pointer_block_height
      ⟨some (chunk.map fun el => el.tx_pointer_block_height.isSome.toNat),
       (chunk.filterMap (fun el => el.tx_pointer_block_height)).map
         (fun el => PhysValue.i32 (asI32 el))⟩
      = some (chunk.map fun x => x.tx_pointer_block_height.elim Field.null Field.uint) := by
    refine assembleOpt_encode fun x hx v hv => ?_
    have hwf := (h x hx).2.2.1
    rw [hv] at hwf
    exact convert_uint32_roundtrip rfl rfl hwf
  have e3 : assembleColumn CoinSchema.tx_pointer_tx_idx
      ⟨some (chunk.map fun el => el.tx_pointer_tx_idx.isSome.toNat),
       (chunk.filterMap (fun el => el.tx_pointer_tx_idx)).map
         (fun el => PhysValue.i32 (asI32 el))⟩
      = some (chunk.map fun x => x.tx_pointer_tx_idx.elim Field.null Field.ushort) := by
    refine assembleOpt_encode fun x hx v hv => ?_
    have hwf := (h x hx).2.2.2.1
    rw [hv] at hwf
    exact convert_uint16_roundtrip rfl rfl hwf
  have e4 : assembleColumn CoinSchema.maturity
      ⟨some (chunk.map fun el => el.maturity.isSome.toNat),
       (chunk.filterMap (fun el => el.maturity)).map
         (fun el => PhysValue.i32 (asI32 el))⟩
      = some (chunk.map fun x => x.maturity.elim Field.null Field.uint) := by
    refine assembleOpt_encode fun x hx v hv => ?_
    have hwf := (h x hx).2.2.2.2.1
    rw [hv] at hwf
    exact convert_uint32_roundtrip rfl rfl hwf
  have e5 : assembleColumn CoinSchema.owner
      ⟨none, chunk.map fun el => PhysValue.fixedBytes el.owner⟩
      = some (chunk.map fun x => Field.bytes x.owner) :=
    mapOpt_map_eq fun _ _ => rfl
  have e6 : assembleColumn CoinSchema.amount
      ⟨none, chunk.map fun el => PhysValue.i64 (asI64 el.amount)⟩
      = some (chunk.map fun x => Field.ulong x.amount) := by
    refine mapOpt_map_eq fun x hx => ?_
    exact convert_uint64_roundtrip rfl rfl (h x hx).2.2.2.2.2.2.1
  have e7 : assembleColumn CoinSchema.asset_id
      ⟨none, chunk.map fun el => PhysValue.fixedBytes el.asset_id⟩
      = some (chunk.map fun x => Field.bytes x.asset_id) :=
    mapOpt_map_eq fun _ _ => rfl
  simp only [coinRowGroup, decodeCoinGroup, e0, e1, e2, e3, e4, e5, e6, e7,
    Option.bind_eq_bind, Option.some_bind, zipSame_map_map]
  exact mapOpt_map_id fun x hx => parseCoinRow_correct (h x hx)

theorem coin_roundtrip (cfg : ParquetCodec) (data : List CoinConfig)
    (hbs : 0 < cfg.batch_size) (h : ∀ c ∈ data, c.wf) :
    ParquetCodec.decode_subset_coin_rows (cfg.encode_subset_coin data)
      = some data := by
  have hn : cfg.batch_size ≠ 0 := by omega
  unfold ParquetCodec.decode_subset_coin_rows ParquetCodec.encode_subset_coin
  rw [if_pos rfl]
  rw [mapOpt_map_id fun chunk hchunk =>
    decodeCoinGroup_roundtrip fun c hc =>
      h c (mem_of_mem_chunksOf hn hchunk hc)]
  simp [chunksOf_flatten hn]

theorem parseMessageRow_correct {c : MessageConfig} (h : c.wf) :
    parseMessageRow
      (Field.bytes c.sender, Field.bytes c.recipient, Field.bytes c.nonce,
       Field.ulong c.amount, Field.bytes c.data, Field.ulong c.da_height)
      = some c := by
  obtain ⟨s, r, n, am, d, dh⟩ := c
  obtain ⟨h1, h2, h3, h4, h5⟩ := h
  simp_all [parseMessageRow, bytes32OfData]

theorem decodeMessageGroup_roundtrip {chunk : List MessageConfig}
    (h : ∀ c ∈ chunk, c.wf) :
    decodeMessageGroup (messageRowGroup chunk) = some chunk := by
  have e0 : assembleColumn MessageSchema.sender
      ⟨none, chunk.map fun el => PhysValue.fixedBytes el.sender⟩
      = some (chunk.map fun x => Field.bytes x.sender) :=
    mapOpt_map_eq fun _ _ => rfl
  have e1 : assembleColumn MessageSchema.recipient
      ⟨none, chunk.map fun el => PhysValue.fixedBytes el.recipient⟩
      = some (chunk.map fun x => Field.bytes x.recipient) :=
    mapOpt_map_eq fun _ _ => rfl
  have e2 : assembleColumn MessageSchema.nonce
      ⟨none, chunk.map fun el => PhysValue.fixedBytes el.nonce⟩
      = some (chunk.map fun x => Field.bytes x.nonce) :=
    mapOpt_map_eq fun _ _ => rfl
  have e3 : assembleColumn MessageSchema.amount
      ⟨none, chunk.map fun el => PhysValue.i64 (asI64 el.amount)⟩
      = some (chunk.map fun x => Field.ulong x.amount) := by
    refine mapOpt_map_eq fun x hx => ?_
    exact convert_uint64_roundtrip rfl rfl (h x hx).2.2.2.1
  have e4 : assembleColumn MessageSchema.data
      ⟨none, chunk.map fun el => PhysValue.varBytes el.data⟩
      = some (chunk.map fun x => Field.bytes x.data) :=
    mapOpt_map_eq fun _ _ => rfl
  have e5 : assembleColumn MessageSchema.da_height
      ⟨none, chunk.map fun el => PhysValue.i64 (asI64 el.da_height)⟩
      = some (chunk.map fun x => Field.ulong x.da_height) := by
    refine mapOpt_map_eq fun x hx => ?_
    exact convert_uint64_roundtrip rfl rfl (h x hx).2.2.2.2
  simp only [messageRowGroup, decodeMessageGroup, e0, e1, e2, e3, e4, e5,
    Option.bind_eq_bind, Option.some_bind, zipSame_map_map]
  exact mapOpt_map_id fun x hx => parseMessageRow_correct (h x hx)

theorem message_roundtrip (cfg : ParquetCodec) (data : List MessageConfig)
    (hbs : 0 < cfg.batch_size) (h : ∀ c ∈ data, c.wf) :
    ParquetCodec.decode_subset_message_rows (cfg.encode_subset_message data)
      = some data := by
  have hn : cfg.batch_size ≠ 0 := by omega
  unfold ParquetCodec.decode_subset_message_rows ParquetCodec.encode_subset_message
  rw [if_pos rfl]
  rw [mapOpt_map_id fun chunk hchunk =>
    decodeMessageGroup_roundtrip fun c hc =>
      h c (mem_of_mem_chunksOf hn hchunk hc)]
  simp [chunksOf_flatten hn]

theorem parseContractRow_correct {c : ContractConfig} (h : c.wf) :
    parseContractRow
      (Field.bytes c.contract_id, Field.bytes c.code, Field.bytes c.salt,
       c.tx_id.elim Field.null Field.bytes,
       c.output_index.elim Field.null Field.ubyte,
       c.tx_pointer_block_height.elim Field.null Field.uint,
       c.tx_pointer_tx_idx.elim Field.null Field.ushort) = some c := by
  obtain ⟨ci, co, sa, t, o, bh, ti⟩ := c
  obtain ⟨h1, h2, h3, h4, h5, h6⟩ := h
  cases t <;> cases o <;> cases bh <;> cases ti <;>
    simp_all [parseContractRow, bytes32OfData, optAll, Option.elim]

theorem decodeContractGroup_roundtrip {chunk : List ContractConfig}
    (h : ∀ c ∈ chunk, c.wf) :
    decodeContractGroup (contractRowGroup chunk) = some chunk := by
  have e0 : assembleColumn ContractSchema.contract_id
      ⟨none, chunk.map fun el => PhysValue.fixedBytes el.contract_id⟩
      = some (chunk.map fun x => Field.bytes x.contract_id) :=
    mapOpt_map_eq fun _ _ => rfl
  have e1 : assembleColumn ContractSchema.code
      ⟨none, chunk.map fun el => PhysValue.varBytes el.code⟩
      = some (chunk.map fun x => Field.bytes x.code) :=
    mapOpt_map_eq fun _ _ => rfl
  have e2 : assembleColumn ContractSchema.salt
      ⟨none, chunk.map fun el => PhysValue.fixedBytes el.salt⟩
      = some (chunk.map fun x => Field.bytes x.salt) :=
    mapOpt_map_eq fun _ _ => rfl
  have e3 : assembleColumn ContractSchema.tx_id
      ⟨some (chunk.map fun el => el.tx_id.isSome.toNat),
       (chunk.filterMap (fun el => el.tx_id)).map PhysValue.fixedBytes⟩
      = some (chunk.map fun x => x.tx_id.elim Field.null Field.bytes) :=
    assembleOpt_encode fun _ _ _ _ => rfl
  have e4 : assembleColumn ContractSchema.output_index
      ⟨some (chunk.map fun el => el.output_index.isSome.toNat),
       (chunk.filterMap (fun el => el.output_index)).map
         (fun el => PhysValue.i32 (asI32 el))⟩
      = some (chunk.map fun x => x.output_index.elim Field.null Field.ubyte) := by
    refine assembleOpt_encode fun x hx v hv => ?_
    have hwf := (h x hx).2.2.2.1
    rw [hv] at hwf
    exact convert_uint8_roundtrip rfl rfl hwf
  have e5 : assembleColumn ContractSchema.tx_pointer_block_height
      ⟨some (chunk.map fun el => el.tx_pointer_block_height.isSome.toNat),
       (chunk.filterMap (fun el => el.tx_pointer_block_height)).map
         (fun el => PhysValue.i32 (asI32 el))⟩
      = some (chunk.map fun x =>
          x.tx_pointer_block_height.elim Field.null Field.uint) := by
    refine assembleOpt_encode fun x hx v hv => ?_
    have hwf := (h x hx).2.2.2.2.1
    rw [hv] at hwf
    exact convert_uint32_roundtrip rfl rfl hwf
  have e6 : assembleColumn ContractSchema.tx_pointer_tx_idx
      ⟨some (chunk.map fun el => el.tx_pointer_tx_idx.isSome.toNat),
       (chunk.filterMap (fun el => el.tx_pointer_tx_idx)).map
         (fun el => PhysValue.i32 (asI32 el))⟩
      = some (chunk.map fun x => x.tx_pointer_tx_idx.elim Field.null Field.ushort) := by
    refine assembleOpt_encode fun x hx v hv => ?_
    have hwf := (h x hx).2.2.2.2.2
    rw [hv] at hwf
    exact convert_uint16_roundtrip rfl rfl hwf
  simp only [contractRowGroup, decodeContractGroup, e0, e1, e2, e3, e4, e5, e6,
    Option.bind_eq_bind, Option.some_bind, zipSame_map_map]
  exact mapOpt_map_id fun x hx => parseContractRow_correct (h x hx)

theorem contract_roundtrip (cfg : ParquetCodec) (data : List ContractConfig)
    (hbs : 0 < cfg.batch_size) (h : ∀ c ∈ data, c.wf) :
    ParquetCodec.decode_subset_contract_rows (cfg.encode_subset_contract data)
      = some data := by
  have hn : cfg.batch_size ≠ 0 := by omega
  unfold ParquetCodec.decode_subset_contract_rows ParquetCodec.encode_subset_contract
  rw [if_pos rfl]
  rw [mapOpt_map_id fun chunk hchunk =>
    decodeContractGroup_roundtrip fun c hc =>
      h c (mem_of_mem_chunksOf hn hchunk hc)]
  simp [chunksOf_flatten hn]

theorem parseStateRow_correct {c : ContractState} (h : c.wf) :
    parseStateRow (Field.bytes c.key, Field.bytes c.value) = some c := by
  obtain ⟨k, v⟩ := c
  obtain ⟨h1, h2⟩ := h
  simp_all [parseStateRow, bytes32OfData]

theorem decodeStateGroup_roundtrip {chunk : List ContractState}
    (h : ∀ c ∈ chunk, c.wf) :
    decodeStateGroup (stateRowGroup chunk) = some chunk := by
  have e0 : assembleColumn StateSchema.key
      ⟨none, chunk.map fun el => PhysValue.fixedBytes el.key⟩
      = some (chunk.map fun x => Field.bytes x.key) :=
    mapOpt_map_eq fun _ _ => rfl
  have e1 : assembleColumn StateSchema.value
      ⟨none, chunk.map fun el => PhysValue.fixedBytes el.value⟩
      = some (chunk.map fun x => Field.bytes x.value) :=
    mapOpt_map_eq fun _ _ => rfl
  simp only [stateRowGroup, decodeStateGroup, e0, e1,
    Option.bind_eq_bind, Option.some_bind, zipSame_map_map]
  exact mapOpt_map_id fun x hx => parseStateRow_correct (h x hx)

theorem state_roundtrip (cfg : ParquetCodec) (data : List ContractState)
    (hbs : 0 < cfg.batch_size) (h : ∀ c ∈ data, c.wf) :
    ParquetCodec.decode_subset_state_rows (cfg.encode_subset_state data)
      = some data := by
  have hn : cfg.batch_size ≠ 0 := by omega
  unfold ParquetCodec.decode_subset_state_rows ParquetCodec.encode_subset_state
  rw [if_pos rfl]
  rw [mapOpt_map_id fun chunk hchunk =>
    decodeStateGroup_roundtrip fun c hc =>
      h c (mem_of_mem_chunksOf hn hchunk hc)]
  simp [chunksOf_flatten hn]

theorem parseBalanceRow_correct {c : ContractBalance} (h : c.wf) :
    parseBalanceRow (Field.bytes c.asset_id, Field.ulong c.amount) = some c := by
  obtain ⟨a, am⟩ := c
  obtain ⟨h1, h2⟩ := h
  simp_all [parseBalanceRow, bytes32OfData]

theorem decodeBalanceGroup_roundtrip {chunk : List ContractBalance}
    (h : ∀ c ∈ chunk, c.wf) :
    decodeBalanceGroup (balanceRowGroup chunk) = some chunk := by
  have e0 : assembleColumn BalanceSchema.asset_id
      ⟨none, chunk.map fun el => PhysValue.fixedBytes el.asset_id⟩
      = some (chunk.map fun x => Field.bytes x.asset_id) :=
    mapOpt_map_eq fun _ _ => rfl
  have e1 : assembleColumn BalanceSchema.amount
      ⟨none, chunk.map fun el => PhysValue.i64 (asI64 el.amount)⟩
      = some (chunk.map fun x => Field.ulong x.amount) := by
    refine mapOpt_map_eq fun x hx => ?_
    exact convert_uint64_roundtrip rfl rfl (h x hx).2
  simp only [balanceRowGroup, decodeBalanceGroup, e0, e1,
    Option.bind_eq_bind, Option.some_bind, zipSame_map_map]
  exact mapOpt_map_id fun x hx => parseBalanceRow_correct (h x hx)

theorem balance_roundtrip (cfg : ParquetCodec) (data : List ContractBalance)
    (hbs : 0 < cfg.batch_size) (h : ∀ c ∈ data, c.wf) :
    ParquetCodec.decode_subset_balance_rows (cfg.encode_subset_balance data)
      = some data := by
  have hn : cfg.batch_size ≠ 0 := by omega
  unfold ParquetCodec.decode_subset_balance_rows ParquetCodec.encode_subset_balance
  rw [if_pos rfl]
  rw [mapOpt_map_id fun chunk hchunk =>
    decodeBalanceGroup_roundtrip fun c hc =>
      h c (mem_of_mem_chunksOf hn hchunk hc)]
  simp [chunksOf_flatten hn]

theorem coinGroupEvents_step (chunk : List CoinConfig) :
    (coinGroupEvents chunk).foldl writerStep (some WriterState.top)
      = some WriterState.top := rfl

theorem flatMap_column_block_writes (cols : List ColumnChunk) :
    ((cols.flatMap fun c =>
        [WriterEvent.nextColumn, WriterEvent.writeBatch c,
         WriterEvent.closeColumn]).filterMap writtenChunk) = cols := by
  induction cols with
  | nil => rfl
  | cons c cs ih =>
    simp [List.flatMap_cons, List.filterMap_append, List.filterMap_cons,
      writtenChunk, ih]

theorem coinGroupEvents_writes (chunk : List CoinConfig) :
    (coinGroupEvents chunk).filterMap writtenChunk = coinRowGroup chunk := by
  simp [coinGroupEvents, List.filterMap_cons, List.filterMap_append,
    writtenChunk, flatMap_column_block_writes]

theorem encode_coin_trace_disciplined (cfg : ParquetCodec)
    (data : List CoinConfig) :
    disciplined (cfg.encode_subset_coin_trace data) := by
  unfold disciplined ParquetCodec.encode_subset_coin_trace
  rw [List.foldl_append]
  have key : ∀ chunks : List (List CoinConfig),
      (chunks.flatMap coinGroupEvents).foldl writerStep (some WriterState.top)
        = some WriterState.top := by
    intro chunks
    induction chunks with
    | nil => rfl
    | cons c cs ih =>
      rw [List.flatMap_cons, List.foldl_append, coinGroupEvents_step]
      exact ih
  rw [key]
  rfl

theorem encode_coin_trace_writes (cfg : ParquetCodec) (data : List CoinConfig) :
    (cfg.encode_subset_coin_trace data).filterMap writtenChunk
      = (cfg.encode_subset_coin data).groups.flatten := by
  unfold ParquetCodec.encode_subset_coin_trace ParquetCodec.encode_subset_coin
  rw [List.filterMap_append]
  have key : ∀ chunks : List (List CoinConfig),
      (chunks.flatMap coinGroupEvents).filterMap writtenChunk
        = (chunks.map coinRowGroup).flatten := by
    intro chunks
    induction chunks with
    | nil => rfl
    | cons c cs ih =>
      simp [List.flatMap_cons, List.filterMap_append, coinGroupEvents_writes, ih]
  simp [key, writtenChunk]

theorem matches_opt {β : Type} (defs : List Nat) (l : List β)
    (enc : β → PhysValue) (fd : PrimitiveField)
    (hrep : fd.repetition = Repetition.optional)
    (henc : ∀ b, physKind (enc b) = fd.physical) :
    columnMatchesField ⟨some defs, l.map enc⟩ fd := by
  constructor
  · simp [hrep]
  · intro v hv
    obtain ⟨b, _, rfl⟩ := List.mem_map.mp hv
    exact henc b

theorem matches_req {β : Type} (l : List β) (enc : β → PhysValue)
    (fd : PrimitiveField) (hrep : fd.repetition = Repetition.required)
    (henc : ∀ b, physKind (enc b) = fd.physical) :
    columnMatchesField ⟨none, l.map enc⟩ fd := by
  constructor
  · simp [hrep]
  · intro v hv
    obtain ⟨b, _, rfl⟩ := List.mem_map.mp hv
    exact henc b

theorem coinRowGroup_matches (chunk : List CoinConfig) :
    List.Forall₂ columnMatchesField (coinRowGroup chunk)
      CoinConfig.schema.fields := by
  refine List.Forall₂.cons (matches_opt _ _ _ _ rfl fun _ => rfl) ?_
  refine List.Forall₂.cons (matches_opt _ _ _ _ rfl fun _ => rfl) ?_
  refine List.Forall₂.cons (matches_opt _ _ _ _ rfl fun _ => rfl) ?_
  refine List.Forall₂.cons (matches_opt _ _ _ _ rfl fun _ => rfl) ?_
  refine List.Forall₂.cons (matches_opt _ _ _ _ rfl fun _ => rfl) ?_
  refine List.Forall₂.cons (matches_req _ _ _ rfl fun _ => rfl) ?_
  refine List.Forall₂.cons (matches_req _ _ _ rfl fun _ => rfl) ?_
  refine List.Forall₂.cons (matches_req _ _ _ rfl fun _ => rfl) ?_
  exact List.Forall₂.nil

theorem messageRowGroup_matches (chunk : List MessageConfig) :
    List.Forall₂ columnMatchesField (messageRowGroup chunk)
      MessageConfig.schema.fields := by
  refine List.Forall₂.cons (matches_req _ _ _ rfl fun _ => rfl) ?_
  refine List.Forall₂.cons (matches_req _ _ _ rfl fun _ => rfl) ?_
  refine List.Forall₂.cons (matches_req _ _ _ rfl fun _ => rfl) ?_
  refine List.Forall₂.cons (matches_req _ _ _ rfl fun _ => rfl) ?_
  refine List.Forall₂.cons (matches_req _ _ _ rfl fun _ => rfl) ?_
  refine List.Forall₂.cons (matches_req _ _ _ rfl fun _ => rfl) ?_
  exact List.Forall₂.nil

theorem contractRowGroup_matches (chunk : List ContractConfig) :
    List.Forall₂ columnMatchesField (contractRowGroup chunk)
      ContractConfig.schema.fields := by
  refine List.Forall₂.cons (matches_req _ _ _ rfl fun _ => rfl) ?_
  refine List.Forall₂.cons (matches_req _ _ _ rfl fun _ => rfl) ?_
  refine List.Forall₂.cons (matches_req _ _ _ rfl fun _ => rfl) ?_
  refine List.Forall₂.cons (matches_opt _ _ _ _ rfl fun _ => rfl) ?_
  refine List.Forall₂.cons (matches_opt _ _ _ _ rfl fun _ => rfl) ?_
  refine List.Forall₂.cons (matches_opt _ _ _ _ rfl fun _ => rfl) ?_
  refine List.Forall₂.cons (matches_opt _ _ _ _ rfl fun _ => rfl) ?_
  exact List.Forall₂.nil

theorem stateRowGroup_matches (chunk : List ContractState) :
    List.Forall₂ columnMatchesField (stateRowGroup chunk)
      ContractState.schema.fields := by
  refine List.Forall₂.cons (matches_req _ _ _ rfl fun _ => rfl) ?_
  refine List.Forall₂.cons (matches_req _ _ _ rfl fun _ => rfl) ?_
  exact List.Forall₂.nil

theorem balanceRowGroup_matches (chunk : List ContractBalance) :
    List.Forall₂ columnMatchesField (balanceRowGroup chunk)
      ContractBalance.schema.fields := by
  refine List.Forall₂.cons (matches_req _ _ _ rfl fun _ => rfl) ?_
  refine List.Forall₂.cons (matches_req _ _ _ rfl fun _ => rfl) ?_
  exact List.Forall₂.nil

theorem convertValue_none_of_mismatch (fd : PrimitiveField) (v : PhysValue)
    (h : physKind v ≠ fd.physical) : convertValue fd v = none := by
  obtain ⟨nm, ph, len, cv, rp⟩ := fd
  cases v <;> cases ph <;> simp_all [convertValue, physKind]

theorem rows_none_of_group {α : Type} (dec : List ColumnChunk → Option (List α))
    (s : Schema) (file : Container) {g : List ColumnChunk}
    (hg : g ∈ file.groups) (hfail : dec g = none) :
    (if file.schema = s then (mapOpt dec file.groups).map List.flatten
     else none) = none := by
  split
  · rw [mapOpt_none_of_mem hg hfail]
    rfl
  · rfl

theorem rows_some_forall {α : Type} (dec : List ColumnChunk → Option (List α))
    (s : Schema) (file : Container) {rows : List α}
    (h : (if file.schema = s then (mapOpt dec file.groups).map List.flatten
          else none) = some rows) :
    ∀ g ∈ file.groups, ∃ rs, dec g = some rs := by
  split at h
  · obtain ⟨l, hl, _⟩ := Option.map_eq_some'.mp h
    exact mapOpt_eq_some_forall hl
  · cases h

/-- C1: for every record type (Coin, Message, Contract, ContractStorageEntry
= `ContractState`, ContractBalance) and for every batch — in particular of
size 0, of size 1, and of size N greater than `batch_size`, which makes the
encoder emit more than one row group — decoding the container produced by
`encode_subset` reconstructs exactly the input batch: the same number of
records, in the same order, with every field (including each optional
field's Some/None status) equal to the original. -/
theorem C1_roundtrip :
    (∀ (cfg : ParquetCodec) (data : List CoinConfig), 0 < cfg.batch_size →
      (∀ c ∈ data, c.wf) →
      ParquetCodec.decode_subset_coin_rows (cfg.encode_subset_coin data)
        = some data) ∧
    (∀ (cfg : ParquetCodec) (data : List MessageConfig), 0 < cfg.batch_size →
      (∀ c ∈ data, c.wf) →
      ParquetCodec.decode_subset_message_rows (cfg.encode_subset_message data)
        = some data) ∧
    (∀ (cfg : ParquetCodec) (data : List ContractConfig), 0 < cfg.batch_size →
      (∀ c ∈ data, c.wf) →
      ParquetCodec.decode_subset_contract_rows (cfg.encode_subset_contract data)
        = some data) ∧
    (∀ (cfg : ParquetCodec) (data : List ContractState), 0 < cfg.batch_size →
      (∀ c ∈ data, c.wf) →
      ParquetCodec.decode_subset_state_rows (cfg.encode_subset_state data)
        = some data) ∧
    (∀ (cfg : ParquetCodec) (data : List ContractBalance), 0 < cfg.batch_size →
      (∀ c ∈ data, c.wf) →
      ParquetCodec.decode_subset_balance_rows (cfg.encode_subset_balance data)
        = some data) :=
  ⟨coin_roundtrip, message_roundtrip, contract_roundtrip, state_roundtrip,
   balance_roundtrip⟩

/-- Witness for C1: concrete round trips at batch sizes 0, 1 and 3 with
`batch_size = 2` (three coins force two row groups) and for each record
type. -/
theorem C1_roundtrip_witness :
    ParquetCodec.decode_subset_coin_rows
      ((ParquetCodec.mk 2 0).encode_subset_coin [coinA, coinB, coinC])
      = some [coinA, coinB, coinC]
    ∧ ParquetCodec.decode_subset_coin_rows
        ((ParquetCodec.mk 2 0).encode_subset_coin []) = some []
    ∧ ParquetCodec.decode_subset_coin_rows
        ((ParquetCodec.mk 2 0).encode_subset_coin [coinA]) = some [coinA]
    ∧ ParquetCodec.decode_subset_message_rows
        ((ParquetCodec.mk 2 3).encode_subset_message [msgA, msgB, msgA])
        = some [msgA, msgB, msgA]
    ∧ ParquetCodec.decode_subset_contract_rows
        ((ParquetCodec.mk 1 0).encode_subset_contract [contractA, contractB])
        = some [contractA, contractB]
    ∧ ParquetCodec.decode_subset_state_rows
        ((ParquetCodec.mk 2 0).encode_subset_state [stateA]) = some [stateA]
    ∧ ParquetCodec.decode_subset_balance_rows
        ((ParquetCodec.mk 2 0).encode_subset_balance [balanceA])
        = some [balanceA] :=
  ⟨C1_roundtrip.1 ⟨2, 0⟩ [coinA, coinB, coinC] (by decide) (by decide),
   C1_roundtrip.1 ⟨2, 0⟩ [] (by decide) (by decide),
   C1_roundtrip.1 ⟨2, 0⟩ [coinA] (by decide) (by decide),
   C1_roundtrip.2.1 ⟨2, 3⟩ [msgA, msgB, msgA] (by decide) (by decide),
   C1_roundtrip.2.2.1 ⟨1, 0⟩ [contractA, contractB] (by decide) (by decide),
   C1_roundtrip.2.2.2.1 ⟨2, 0⟩ [stateA] (by decide) (by decide),
   C1_roundtrip.2.2.2.2 ⟨2, 0⟩ [balanceA] (by decide) (by decide)⟩

/-- C2 counterexample: two containers that decode to different record
sequences produce the identical unit result from `decode_subset`: the
function's return value carries no records, so the reconstructed rows are
discarded rather than returned to the caller. -/
theorem C2_decode_discards_cx :
    ParquetCodec.decode_subset_coin
        ((ParquetCodec.mk 2 0).encode_subset_coin [coinB])
      = ParquetCodec.decode_subset_coin
          ((ParquetCodec.mk 2 0).encode_subset_coin [])
    ∧ ParquetCodec.decode_subset_coin_rows
        ((ParquetCodec.mk 2 0).encode_subset_coin [coinB])
      ≠ ParquetCodec.decode_subset_coin_rows
          ((ParquetCodec.mk 2 0).encode_subset_coin []) := by
  constructor
  · decide
  · decide

/-- C2 (amended): for every record type, the decode loop reconstructs the
full sequence of typed records internally — for an encoded batch the
reconstructed sequence equals the input — but `decode_subset` returns `()`
to its caller, discarding the records instead of returning them; failures
are panics, not a returned `Result`. -/
theorem C2_decode_unit :
    (∀ (cfg : ParquetCodec) (data : List CoinConfig), 0 < cfg.batch_size →
      (∀ c ∈ data, c.wf) →
      ParquetCodec.decode_subset_coin (cfg.encode_subset_coin data) = some ()
      ∧ ParquetCodec.decode_subset_coin_rows (cfg.encode_subset_coin data)
          = some data) ∧
    (∀ (cfg : ParquetCodec) (data : List MessageConfig), 0 < cfg.batch_size →
      (∀ c ∈ data, c.wf) →
      ParquetCodec.decode_subset_message (cfg.encode_subset_message data)
          = some ()
      ∧ ParquetCodec.decode_subset_message_rows (cfg.encode_subset_message data)
          = some data) ∧
    (∀ (cfg : ParquetCodec) (data : List ContractConfig), 0 < cfg.batch_size →
      (∀ c ∈ data, c.wf) →
      ParquetCodec.decode_subset_contract (cfg.encode_subset_contract data)
          = some ()
      ∧ ParquetCodec.decode_subset_contract_rows (cfg.encode_subset_contract data)
          = some data) ∧
    (∀ (cfg : ParquetCodec) (data : List ContractState), 0 < cfg.batch_size →
      (∀ c ∈ data, c.wf) →
      ParquetCodec.decode_subset_state (cfg.encode_subset_state data) = some ()
      ∧ ParquetCodec.decode_subset_state_rows (cfg.encode_subset_state data)
          = some data) ∧
    (∀ (cfg : ParquetCodec) (data : List ContractBalance), 0 < cfg.batch_size →
      (∀ c ∈ data, c.wf) →
      ParquetCodec.decode_subset_balance (cfg.encode_subset_balance data)
          = some ()
      ∧ ParquetCodec.decode_subset_balance_rows (cfg.encode_subset_balance data)
          = some data) := by
  refine ⟨fun cfg data hbs h => ?_, fun cfg data hbs h => ?_,
    fun cfg data hbs h => ?_, fun cfg data hbs h => ?_,
    fun cfg data hbs h => ?_⟩
  · constructor
    · unfold ParquetCodec.decode_subset_coin
      rw [coin_roundtrip cfg data hbs h]
      rfl
    · exact coin_roundtrip cfg data hbs h
  · constructor
    · unfold ParquetCodec.decode_subset_message
      rw [message_roundtrip cfg data hbs h]
      rfl
    · exact message_roundtrip cfg data hbs h
  · constructor
    · unfold ParquetCodec.decode_subset_contract
      rw [contract_roundtrip cfg data hbs h]
      rfl
    · exact contract_roundtrip cfg data hbs h
  · constructor
    · unfold ParquetCodec.decode_subset_state
      rw [state_roundtrip cfg data hbs h]
      rfl
    · exact state_roundtrip cfg data hbs h
  · constructor
    · unfold ParquetCodec.decode_subset_balance
      rw [balance_roundtrip cfg data hbs h]
      rfl
    · exact balance_roundtrip cfg data hbs h

/-- Witness for C2 (amended) at a concrete coin batch. -/
theorem C2_decode_unit_witness :
    ParquetCodec.decode_subset_coin
        ((ParquetCodec.mk 2 0).encode_subset_coin [coinA, coinB, coinC])
      = some ()
    ∧ ParquetCodec.decode_subset_coin_rows
        ((ParquetCodec.mk 2 0).encode_subset_coin [coinA, coinB, coinC])
      = some [coinA, coinB, coinC] :=
  C2_decode_unit.1 ⟨2, 0⟩ [coinA, coinB, coinC] (by decide) (by decide)

/-- C3 counterexample: with `compression_level = 0` the writer properties
still record the GZIP codec (at gzip level 0), not the absence of a
compression codec. -/
theorem C3_gzip_at_zero_cx :
    ((ParquetCodec.mk 2 0).encode_subset_coin []).compression
      = Compression.gzip 0
    ∧ ((ParquetCodec.mk 2 0).encode_subset_coin []).compression
      ≠ Compression.uncompressed := by
  constructor
  · rfl
  · decide

/-- C3 (amended): `get_writer` unconditionally configures the GZIP
compression codec at exactly the configured level, for every record type's
encoder; `compression_level = 0` therefore selects GZIP at gzip level 0 (no
size reduction, but the codec identifier and level are still the recorded
compression), rather than disabling compression. -/
theorem C3_gzip_always_recorded :
    (∀ (cfg : ParquetCodec) (data : List CoinConfig),
      (cfg.encode_subset_coin data).compression
        = Compression.gzip cfg.compression_level) ∧
    (∀ (cfg : ParquetCodec) (data : List MessageConfig),
      (cfg.encode_subset_message data).compression
        = Compression.gzip cfg.compression_level) ∧
    (∀ (cfg : ParquetCodec) (data : List ContractConfig),
      (cfg.encode_subset_contract data).compression
        = Compression.gzip cfg.compression_level) ∧
    (∀ (cfg : ParquetCodec) (data : List ContractState),
      (cfg.encode_subset_state data).compression
        = Compression.gzip cfg.compression_level) ∧
    (∀ (cfg : ParquetCodec) (data : List ContractBalance),
      (cfg.encode_subset_balance data).compression
        = Compression.gzip cfg.compression_level) ∧
    (∀ level : Nat, get_writer_compression level = Compression.gzip level) :=
  ⟨fun _ _ => rfl, fun _ _ => rfl, fun _ _ => rfl, fun _ _ => rfl,
   fun _ _ => rfl, fun _ => rfl⟩

/-- C4: for every input batch and every positive `chunk_size` (`batch_size`),
`encode_subset` partitions the batch into consecutive, non-overlapping row
groups of at most `chunk_size` rows, only the last possibly smaller, in input
order; within each row group the columns are written in schema order (one
chunk per schema field, in positional correspondence), each column is closed
before the next one is opened, each row group is closed before the next
begins, and the writer is closed at the end (stated for the `CoinConfig`
encoder via its writer-call trace, and for every encoder via the per-group
schema correspondence). -/
theorem C4_chunker :
    ∀ (cfg : ParquetCodec) (data : List CoinConfig), 0 < cfg.batch_size →
      (chunksOf cfg.batch_size data).flatten = data
      ∧ (∀ g ∈ chunksOf cfg.batch_size data, g ≠ [] ∧ g.length ≤ cfg.batch_size)
      ∧ (∀ g ∈ (chunksOf cfg.batch_size data).dropLast,
          g.length = cfg.batch_size)
      ∧ (∀ rg ∈ (cfg.encode_subset_coin data).groups,
          List.Forall₂ columnMatchesField rg CoinConfig.schema.fields)
      ∧ disciplined (cfg.encode_subset_coin_trace data)
      ∧ (cfg.encode_subset_coin_trace data).filterMap writtenChunk
          = (cfg.encode_subset_coin data).groups.flatten
      ∧ (∀ (d : List MessageConfig) rg, rg ∈ (cfg.encode_subset_message d).groups →
          List.Forall₂ columnMatchesField rg MessageConfig.schema.fields)
      ∧ (∀ (d : List ContractConfig) rg, rg ∈ (cfg.encode_subset_contract d).groups →
          List.Forall₂ columnMatchesField rg ContractConfig.schema.fields)
      ∧ (∀ (d : List ContractState) rg, rg ∈ (cfg.encode_subset_state d).groups →
          List.Forall₂ columnMatchesField rg ContractState.schema.fields)
      ∧ (∀ (d : List ContractBalance) rg, rg ∈ (cfg.encode_subset_balance d).groups →
          List.Forall₂ columnMatchesField rg ContractBalance.schema.fields) := by
  intro cfg data hbs
  have hn : cfg.batch_size ≠ 0 := by omega
  refine ⟨chunksOf_flatten hn data,
    fun g hg => ⟨chunksOf_ne_nil hn data g hg, chunksOf_length_le hn data g hg⟩,
    chunksOf_dropLast_length hn data, ?_,
    encode_coin_trace_disciplined cfg data,
    encode_coin_trace_writes cfg data, ?_, ?_, ?_, ?_⟩
  · intro rg hrg
    obtain ⟨chunk, _, rfl⟩ := List.mem_map.mp hrg
    exact coinRowGroup_matches chunk
  · intro d rg hrg
    obtain ⟨chunk, _, rfl⟩ := List.mem_map.mp hrg
    exact messageRowGroup_matches chunk
  · intro d rg hrg
    obtain ⟨chunk, _, rfl⟩ := List.mem_map.mp hrg
    exact contractRowGroup_matches chunk
  · intro d rg hrg
    obtain ⟨chunk, _, rfl⟩ := List.mem_map.mp hrg
    exact stateRowGroup_matches chunk
  · intro d rg hrg
    obtain ⟨chunk, _, rfl⟩ := List.mem_map.mp hrg
    exact balanceRowGroup_matches chunk

/-- Witness for C4 at a concrete three-coin batch with `batch_size = 2`. -/
theorem C4_chunker_witness :
    (chunksOf 2 [coinA, coinB, coinC]).flatten = [coinA, coinB, coinC]
    ∧ disciplined
        ((ParquetCodec.mk 2 0).encode_subset_coin_trace [coinA, coinB, coinC])
    ∧ ((ParquetCodec.mk 2 0).encode_subset_coin_trace
          [coinA, coinB, coinC]).filterMap writtenChunk
        = ((ParquetCodec.mk 2 0).encode_subset_coin
            [coinA, coinB, coinC]).groups.flatten :=
  ⟨(C4_chunker ⟨2, 0⟩ [coinA, coinB, coinC] (by decide)).1,
   (C4_chunker ⟨2, 0⟩ [coinA, coinB, coinC] (by decide)).2.2.2.2.1,
   (C4_chunker ⟨2, 0⟩ [coinA, coinB, coinC] (by decide)).2.2.2.2.2.1⟩

/-- C5: for every row group written by `encode_subset` and every optional
column chunk in it, the definition-level (presence) vector has exactly one
entry per row of that group, and the dense value array holds exactly as many
values as there are levels equal to 1 (stated for the two record types with
optional columns, `CoinConfig` and `ContractConfig`; the other three have no
optional columns). -/
theorem C5_presence :
    (∀ (cfg : ParquetCodec) (data : List CoinConfig) rg,
      rg ∈ (cfg.encode_subset_coin data).groups →
      ∃ chunk ∈ chunksOf cfg.batch_size data,
        rg = coinRowGroup chunk ∧
        ∀ c ∈ rg, ∀ defs, c.defLevels = some defs →
          defs.length = chunk.length ∧ c.values.length = defs.count 1) ∧
    (∀ (cfg : ParquetCodec) (data : List ContractConfig) rg,
      rg ∈ (cfg.encode_subset_contract data).groups →
      ∃ chunk ∈ chunksOf cfg.batch_size data,
        rg = contractRowGroup chunk ∧
        ∀ c ∈ rg, ∀ defs, c.defLevels = some defs →
          defs.length = chunk.length ∧ c.values.length = defs.count 1) := by
  constructor
  · intro cfg data rg hrg
    obtain ⟨chunk, hchunk, rfl⟩ := List.mem_map.mp hrg
    refine ⟨chunk, hchunk, rfl, ?_⟩
    intro c hc defs hdefs
    simp only [coinRowGroup, List.mem_cons, List.not_mem_nil, or_false] at hc
    rcases hc with rfl | rfl | rfl | rfl | rfl | rfl | rfl | rfl <;>
      first
        | exact Option.noConfusion hdefs
        | · obtain rfl := Option.some.inj hdefs
            refine ⟨by simp, ?_⟩
            rw [List.length_map]
            exact filterMap_length_count _ _
  · intro cfg data rg hrg
    obtain ⟨chunk, hchunk, rfl⟩ := List.mem_map.mp hrg
    refine ⟨chunk, hchunk, rfl, ?_⟩
    intro c hc defs hdefs
    simp only [contractRowGroup, List.mem_cons, List.not_mem_nil, or_false] at hc
    rcases hc with rfl | rfl | rfl | rfl | rfl | rfl | rfl <;>
      first
        | exact Option.noConfusion hdefs
        | · obtain rfl := Option.some.inj hdefs
            refine ⟨by simp, ?_⟩
            rw [List.length_map]
            exact filterMap_length_count _ _

/-- Witness for C5: the first row group of a three-coin batch encoded with
`batch_size = 2`. -/
theorem C5_presence_witness :
    ∃ chunk ∈ chunksOf 2 [coinA, coinB, coinC],
      coinRowGroup [coinA, coinB] = coinRowGroup chunk ∧
      ∀ c ∈ coinRowGroup [coinA, coinB], ∀ defs, c.defLevels = some defs →
        defs.length = chunk.length ∧ c.values.length = defs.count 1 :=
  C5_presence.1 ⟨2, 0⟩ [coinA, coinB, coinC] (coinRowGroup [coinA, coinB])
    (by decide)

/-- C6: the optional `output_index` coin field (logical width 8 bits, stored
widened into a 32-bit physical column) round-trips exactly: encoding
`Some(255)` and decoding yields `Some(255)` — neither `Some(0)` nor an error
— and every in-range value of each narrowed integer field (8-, 16- and
32-bit) survives the widening to the physical column and the narrowing on
read. -/
theorem C6_narrowing :
    (∀ n : Nat, n < 2 ^ 8 →
      convertValue CoinSchema.output_index (PhysValue.i32 (asI32 n))
        = some (Field.ubyte n)) ∧
    (∀ n : Nat, n < 2 ^ 16 →
      convertValue CoinSchema.tx_pointer_tx_idx (PhysValue.i32 (asI32 n))
        = some (Field.ushort n)) ∧
    (∀ n : Nat, n < 2 ^ 32 →
      convertValue CoinSchema.tx_pointer_block_height (PhysValue.i32 (asI32 n))
        = some (Field.uint n)) ∧
    (∀ (cfg : ParquetCodec) (c : CoinConfig), 0 < cfg.batch_size → c.wf →
      c.output_index = some 255 →
      (ParquetCodec.decode_subset_coin_rows (cfg.encode_subset_coin [c])).map
        (fun rows => rows.map fun r => r.output_index) = some [some 255]) := by
  refine ⟨fun n hn => convert_uint8_roundtrip rfl rfl hn,
    fun n hn => convert_uint16_roundtrip rfl rfl hn,
    fun n hn => convert_uint32_roundtrip rfl rfl hn,
    fun cfg c hbs hwf h255 => ?_⟩
  have hr := coin_roundtrip cfg [c] hbs fun x hx => by
    rcases List.mem_singleton.mp hx with rfl
    exact hwf
  rw [hr]
  simp [h255]

/-- Witness for C6 at the concrete values 255, 65535 and 4000000000, and at
the concrete coin `coinA` whose `output_index` is `Some 255`. -/
theorem C6_narrowing_witness :
    convertValue CoinSchema.output_index (PhysValue.i32 (asI32 255))
      = some (Field.ubyte 255)
    ∧ convertValue CoinSchema.tx_pointer_tx_idx (PhysValue.i32 (asI32 65535))
      = some (Field.ushort 65535)
    ∧ convertValue CoinSchema.tx_pointer_block_height
        (PhysValue.i32 (asI32 4000000000)) = some (Field.uint 4000000000)
    ∧ (ParquetCodec.decode_subset_coin_rows
        ((ParquetCodec.mk 2 0).encode_subset_coin [coinA])).map
          (fun rows => rows.map fun r => r.output_index) = some [some 255] :=
  ⟨C6_narrowing.1 255 (by decide),
   C6_narrowing.2.1 65535 (by decide),
   C6_narrowing.2.2.1 4000000000 (by decide),
   C6_narrowing.2.2.2 ⟨2, 0⟩ coinA (by decide) (by decide) (by decide)⟩

/-- C7: for every record type and every column index, a physical column
value whose type does not match the logical type the schema expects at that
index is a fatal decode error: the field conversion fails (no silent
coercion), a failed row group makes the whole decode fail (no partial
result), and a successful decode requires every row group to have decoded. -/
theorem C7_mismatch_fatal :
    (∀ fd ∈ CoinConfig.schema.fields ++ MessageConfig.schema.fields ++
        ContractConfig.schema.fields ++ ContractState.schema.fields ++
        ContractBalance.schema.fields,
      ∀ v : PhysValue, physKind v ≠ fd.physical → convertValue fd v = none) ∧
    (∀ (file : Container) (g : List ColumnChunk), g ∈ file.groups →
      decodeCoinGroup g = none →
      ParquetCodec.decode_subset_coin_rows file = none) ∧
    (∀ (file : Container) (g : List ColumnChunk), g ∈ file.groups →
      decodeMessageGroup g = none →
      ParquetCodec.decode_subset_message_rows file = none) ∧
    (∀ (file : Container) (g : List ColumnChunk), g ∈ file.groups →
      decodeContractGroup g = none →
      ParquetCodec.decode_subset_contract_rows file = none) ∧
    (∀ (file : Container) (g : List ColumnChunk), g ∈ file.groups →
      decodeStateGroup g = none →
      ParquetCodec.decode_subset_state_rows file = none) ∧
    (∀ (file : Container) (g : List ColumnChunk), g ∈ file.groups →
      decodeBalanceGroup g = none →
      ParquetCodec.decode_subset_balance_rows file = none) ∧
    (∀ (file : Container) (rows : List CoinConfig),
      ParquetCodec.decode_subset_coin_rows file = some rows →
      ∀ g ∈ file.groups, ∃ rs, decodeCoinGroup g = some rs) :=
  ⟨fun fd _ v hv => convertValue_none_of_mismatch fd v hv,
   fun file _ hg hfail =>
     rows_none_of_group decodeCoinGroup CoinConfig.schema file hg hfail,
   fun file _ hg hfail =>
     rows_none_of_group decodeMessageGroup MessageConfig.schema file hg hfail,
   fun file _ hg hfail =>
     rows_none_of_group decodeContractGroup ContractConfig.schema file hg hfail,
   fun file _ hg hfail =>
     rows_none_of_group decodeStateGroup ContractState.schema file hg hfail,
   fun file _ hg hfail =>
     rows_none_of_group decodeBalanceGroup ContractBalance.schema file hg hfail,
   fun file _ h => rows_some_forall decodeCoinGroup CoinConfig.schema file h⟩

/-- Witness for C7: an `INT32` value in the `tx_id` column (which expects a
32-byte fixed array) fails to convert, and a coin container containing such
a mismatched row group decodes to `none` as a whole. -/
theorem C7_mismatch_fatal_witness :
    convertValue CoinSchema.tx_id (PhysValue.i32 7) = none
    ∧ ParquetCodec.decode_subset_coin_rows badCoinFile = none :=
  ⟨C7_mismatch_fatal.1 CoinSchema.tx_id (by decide) (PhysValue.i32 7) (by decide),
   C7_mismatch_fatal.2.1 badCoinFile badCoinGroup (by decide) (by decide)⟩

/-- C8: the schema is a pure, deterministic function of the record type
alone: the schema recorded in any encoded container is the record type's
schema constant, independent of the codec configuration and of the batch
data, so any two encode calls for the same record type carry structurally
equal schemas (same column count, order, names, types and nullability —
`Schema` equality is structural equality of all of these). -/
theorem C8_schema_stable :
    (∀ (cfg cfg' : ParquetCodec) (d1 d2 : List CoinConfig),
      (cfg.encode_subset_coin d1).schema = (cfg'.encode_subset_coin d2).schema
      ∧ (cfg.encode_subset_coin d1).schema = CoinConfig.schema) ∧
    (∀ (cfg cfg' : ParquetCodec) (d1 d2 : List MessageConfig),
      (cfg.encode_subset_message d1).schema
        = (cfg'.encode_subset_message d2).schema
      ∧ (cfg.encode_subset_message d1).schema = MessageConfig.schema) ∧
    (∀ (cfg cfg' : ParquetCodec) (d1 d2 : List ContractConfig),
      (cfg.encode_subset_contract d1).schema
        = (cfg'.encode_subset_contract d2).schema
      ∧ (cfg.encode_subset_contract d1).schema = ContractConfig.schema) ∧
    (∀ (cfg cfg' : ParquetCodec) (d1 d2 : List ContractState),
      (cfg.encode_subset_state d1).schema = (cfg'.encode_subset_state d2).schema
      ∧ (cfg.encode_subset_state d1).schema = ContractState.schema) ∧
    (∀ (cfg cfg' : ParquetCodec) (d1 d2 : List ContractBalance),
      (cfg.encode_subset_balance d1).schema
        = (cfg'.encode_subset_balance d2).schema
      ∧ (cfg.encode_subset_balance d1).schema = ContractBalance.schema) ∧
    (CoinConfig.schema.fields.length = 8
      ∧ MessageConfig.schema.fields.length = 6
      ∧ ContractConfig.schema.fields.length = 7
      ∧ ContractState.schema.fields.length = 2
      ∧ ContractBalance.schema.fields.length = 2) :=
  ⟨fun _ _ _ _ => ⟨rfl, rfl⟩, fun _ _ _ _ => ⟨rfl, rfl⟩,
   fun _ _ _ _ => ⟨rfl, rfl⟩, fun _ _ _ _ => ⟨rfl, rfl⟩,
   fun _ _ _ _ => ⟨rfl, rfl⟩, rfl, rfl, rfl, rfl, rfl⟩

/-- C9: every `u64` amount is stored by reinterpreting its bits as a signed
64-bit integer (the wrapping `as i64` cast into the UINT_64-annotated INT64
column — values at or above 2^63 become negative), and the reader's `as u64`
reinterpretation recovers the original value, so the cast round-trips
losslessly over the full `u64` range. -/
theorem C9_u64_bitcast :
    (∀ n : Nat, n < 2 ^ 64 → asU64 (asI64 n) = n) ∧
    (∀ n : Nat, 2 ^ 63 ≤ n → n < 2 ^ 64 → asI64 n = (n : Int) - 2 ^ 64) ∧
    (∀ n : Nat, n < 2 ^ 64 →
      convertValue CoinSchema.amount (PhysValue.i64 (asI64 n))
        = some (Field.ulong n)
      ∧ convertValue BalanceSchema.amount (PhysValue.i64 (asI64 n))
        = some (Field.ulong n)) ∧
    (∀ (cfg : ParquetCodec) (b : ContractBalance), 0 < cfg.batch_size → b.wf →
      ParquetCodec.decode_subset_balance_rows (cfg.encode_subset_balance [b])
        = some [b]) := by
  refine ⟨fun n hn => asU64_asI64 hn, fun n h1 h2 => ?_,
    fun n hn => ⟨convert_uint64_roundtrip rfl rfl hn,
      convert_uint64_roundtrip rfl rfl hn⟩,
    fun cfg b hbs hwf => balance_roundtrip cfg [b] hbs fun x hx => ?_⟩
  · simp only [asI64, toSigned]
    rw [Nat.mod_eq_of_lt h2]
    split
    · omega
    · rfl
  · rcases List.mem_singleton.mp hx with rfl
    exact hwf

/-- Witness for C9 at the concrete value 2^63 + 42 (above the signed range)
and the concrete balance record `balanceA` with amount 2^63. -/
theorem C9_u64_bitcast_witness :
    asU64 (asI64 (2 ^ 63 + 42)) = 2 ^ 63 + 42
    ∧ asI64 (2 ^ 63 + 42) = ((2 ^ 63 + 42 : Nat) : Int) - 2 ^ 64
    ∧ convertValue CoinSchema.amount (PhysValue.i64 (asI64 (2 ^ 63 + 42)))
        = some (Field.ulong (2 ^ 63 + 42))
    ∧ ParquetCodec.decode_subset_balance_rows
        ((ParquetCodec.mk 2 0).encode_subset_balance [balanceA])
        = some [balanceA] :=
  ⟨C9_u64_bitcast.1 (2 ^ 63 + 42) (by decide),
   C9_u64_bitcast.2.1 (2 ^ 63 + 42) (by decide) (by decide),
   (C9_u64_bitcast.2.2.1 (2 ^ 63 + 42) (by decide)).1,
   C9_u64_bitcast.2.2.2 ⟨2, 0⟩ balanceA (by decide) (by decide)⟩

/-- C10: the schema for `MessageConfig` has a root group named
`"CoinConfig"`, not `"MessageConfig"`; the correspondence between encoder
columns and schema entries is positional (the i-th column chunk written
matches the i-th schema field's repetition and physical type) and never uses
the root group name, so encoding and decoding of `MessageConfig` batches
still correspond (the round trip succeeds). -/
theorem C10_message_root_name :
    MessageConfig.schema.groupName = "CoinConfig"
    ∧ MessageConfig.schema.groupName ≠ "MessageConfig"
    ∧ (∀ chunk : List MessageConfig,
        List.Forall₂ columnMatchesField (messageRowGroup chunk)
          MessageConfig.schema.fields)
    ∧ (∀ (cfg : ParquetCodec) (data : List MessageConfig), 0 < cfg.batch_size →
        (∀ c ∈ data, c.wf) →
        ParquetCodec.decode_subset_message_rows (cfg.encode_subset_message data)
          = some data) :=
  ⟨rfl, by decide, messageRowGroup_matches, message_roundtrip⟩

/-- Witness for C10 at a concrete two-message batch. -/
theorem C10_message_root_name_witness :
    ParquetCodec.decode_subset_message_rows
        ((ParquetCodec.mk 2 0).encode_subset_message [msgA, msgB])
      = some [msgA, msgB] :=
  C10_message_root_name.2.2.2 ⟨2, 0⟩ [msgA, msgB] (by decide) (by decide)

end Bench
